import Mathlib

/-!
# ggdatetime: calendar and duration fundamentals (`dtfund.hpp`, `dtfund.cpp`)

A shallow embedding of the date/time core of `ngpt` and theorems about it.

Conventions of the embedding

* C++ `int` and `long` values are Lean `Int`s.  The C++ operators `/` and `%`
  on signed operands truncate toward zero: they are `Int.tdiv` and `Int.tmod`.
* Signed overflow of `+`, `-`, `*` is undefined behaviour in C++ and is not
  modelled: arithmetic is exact.  Every narrowing `static_cast<int>` of a
  `long` is modelled by `to_int` (reduction into the 32-bit two's-complement
  range).
* A `throw` is the `Except.error` result; an index outside a table is `none`.
* A C++ `bool` converted to `int` is `0` or `1` (`b2i`).
-/

namespace ngpt

/-! ## Machine-level helpers -/

/-- Narrowing conversion of a `long` to a 32-bit `int` (`static_cast<int>`). -/
def to_int (x : Int) : Int := (x + 2147483648) % 4294967296 - 2147483648

/-- Conversion of a C++ `bool` to `int`. -/
def b2i (b : Bool) : Int := if b then 1 else 0

/-- Exceptions thrown by the library. -/
inductive Exn where
  | out_of_range : String → Exn
  | invalid_argument : String → Exn
deriving DecidableEq, Repr

/-! ## Constants and the leap-year rule (`dtfund.hpp`) -/

/-- Source: `constexpr long jan11901 { 15385L };` -/
def jan11901 : Int := 15385

/-- Source: `inline bool is_leap(int iy)`:
`!(iy%4) && (iy%100 || !(iy%400))`. -/
def is_leap (iy : Int) : Bool :=
  decide (Int.tmod iy 4 = 0) &&
    (decide (Int.tmod iy 100 ≠ 0) || decide (Int.tmod iy 400 = 0))

/-! ## Wrapper classes -/

/-- Source: `class year`: a wrapped `int`. -/
structure year where
  m_year : Int
deriving DecidableEq, Repr

/-- Source: `class month`: a wrapped `int`. -/
structure month where
  m_month : Int
deriving DecidableEq, Repr

/-- Source: `class day_of_month`: a wrapped `int`. -/
structure day_of_month where
  m_dom : Int
deriving DecidableEq, Repr

/-- Source: `class day_of_year`: a wrapped `int`. -/
structure day_of_year where
  m_doy : Int
deriving DecidableEq, Repr

/-- Source: `class modified_julian_day`: a wrapped `long`. -/
structure modified_julian_day where
  m_mjd : Int
deriving DecidableEq, Repr

/-- Modelled from the spec: the declaration of `ymd_date` is not part of the
sources (only its uses in `dtfund.cpp` are); it is the calendar-date triple
(year, month, day of month) with the member names used there. -/
structure ymd_date where
  __year : year
  __month : month
  __dom : day_of_month
deriving DecidableEq, Repr

/-- Modelled from the spec: the declaration of `ydoy_date` is not part of the
sources (only its uses in `dtfund.cpp` are); it is the pair
(year, day of year) with the member names used there. -/
structure ydoy_date where
  __year : year
  __doy : day_of_year
deriving DecidableEq, Repr

/-- Modelled from the spec: the member `year::is_leap()` called in
`dtfund.cpp` is not declared in the sources; it is the leap-year rule
`is_leap` applied to the stored year. -/
def year.is_leap (y : year) : Bool := ngpt.is_leap y.m_year

/-! ## Tables (`dtfund.cpp`) -/

/-- Source: `constexpr static long month_day[2][13]`: days elapsed at the end
of each month, for non-leap and leap years. -/
def month_day : List (List Int) :=
  [[0, 31, 59, 90, 120, 151, 181, 212, 243, 273, 304, 334, 365],
   [0, 31, 60, 91, 121, 152, 182, 213, 244, 274, 305, 335, 366]]

/-- The table read `month_day[leap][i]`; an index outside the table is an
out-of-bounds read (`none`). -/
def month_day_at (leap i : Int) : Option Int :=
  if 0 ≤ leap ∧ 0 ≤ i then
    (month_day.get? leap.toNat).bind (fun row => row.get? i.toNat)
  else none

/-- Source: `constexpr int mtab[]`: month lengths in days. -/
def mtab : List Int := [31, 28, 31, 30, 31, 30, 31, 31, 30, 31, 30, 31]

/-! ## Calendar date to Modified Julian Day -/

/-- Source: `long ngpt::cal2mjd(int iy, int im, int id)`. -/
def cal2mjd (iy im id : Int) : Except Exn Int :=
  if im < 1 ∨ im > 12 then
    .error (.out_of_range "ngpt::cal2mjd -> Invalid Month.")
  else
    let ly : Int := b2i (decide (im = 2) && decide (Int.tmod iy 4 = 0) &&
      (decide (Int.tmod iy 100 ≠ 0) || decide (Int.tmod iy 400 = 0)))
    if id < 1 ∨ id > mtab.getD (im - 1).toNat 0 + ly then
      .error (.out_of_range "ngpt::cal2mjd -> Invalid Day of Month.")
    else
      let my : Int := Int.tdiv (im - 14) 12
      let iypmy : Int := iy + my
      .ok (Int.tdiv (1461 * (iypmy + 4800)) 4
            + Int.tdiv (367 * (im - 2 - 12 * my)) 12
            - Int.tdiv (3 * Int.tdiv (iypmy + 4900) 100) 4
            + id - 2432076)

/-- Source: `modified_julian_day ngpt::cal2mjd(year, month, day_of_month)`: the
wrapper over the `int` version. -/
def cal2mjd_date (y : year) (m : month) (d : day_of_month) :
    Except Exn modified_julian_day :=
  (cal2mjd y.m_year m.m_month d.m_dom).map modified_julian_day.mk

/-! ## Modified Julian Day to calendar date and to (year, day of year) -/

/-- Source: `ymd_date modified_julian_day::to_ymd() const`. -/
def modified_julian_day.to_ymd (self : modified_julian_day) : ymd_date :=
  let l0 : Int := self.m_mjd + (68569 + 2400000 + 1)
  let n : Int := Int.tdiv (4 * l0) 146097
  let l1 : Int := l0 - Int.tdiv (146097 * n + 3) 4
  let i : Int := Int.tdiv (4000 * (l1 + 1)) 1461001
  let l2 : Int := l1 - (Int.tdiv (1461 * i) 4 - 31)
  let k : Int := Int.tdiv (80 * l2) 2447
  let dom : Int := to_int (l2 - Int.tdiv (2447 * k) 80)
  let l3 : Int := Int.tdiv k 11
  { __year := ⟨to_int (100 * (n - 49) + i + l3)⟩,
    __month := ⟨to_int (k + 2 - 12 * l3)⟩,
    __dom := ⟨dom⟩ }

/-- Source: `ydoy_date modified_julian_day::to_ydoy() const`. -/
def modified_julian_day.to_ydoy (self : modified_julian_day) : ydoy_date :=
  let days_fr_jan1_1901 : Int := self.m_mjd - jan11901
  let num_four_yrs : Int := Int.tdiv days_fr_jan1_1901 1461
  let years_so_far : Int := 1901 + 4 * num_four_yrs
  let days_left : Int := days_fr_jan1_1901 - 1461 * num_four_yrs
  let delta_yrs : Int := Int.tdiv days_left 365 - Int.tdiv days_left 1460
  { __doy := ⟨to_int (days_left - 365 * delta_yrs + 1)⟩,
    __year := ⟨to_int (years_so_far + delta_yrs)⟩ }

/-- Source: `modified_julian_day ngpt::ydoy2mjd(year yr, day_of_year doy)`. -/
def ydoy2mjd (yr : year) (doy : day_of_year) : modified_julian_day :=
  let iyr : Int := yr.m_year
  let idy : Int := doy.m_doy
  ⟨Int.tdiv (iyr - 1901) 4 * 1461 + Int.tmod (iyr - 1901) 4 * 365
      + idy - 1 + jan11901⟩

/-! ## Calendar date and (year, day of year) -/

/-- Source: `ydoy_date ymd_date::to_ydoy() const`.  The sum
`month_day[leap][md] + dom` is a `long` stored into the `int` day of year. -/
def ymd_date.to_ydoy (self : ymd_date) : Option ydoy_date :=
  let leap : Int := b2i self.__year.is_leap
  let md : Int := self.__month.m_month - 1
  (month_day_at leap md).map fun c =>
    { __year := self.__year, __doy := ⟨to_int (c + self.__dom.m_dom)⟩ }

/-- The month estimate of `ydoy_date::to_ymd`, `int guess = doy * 0.032`: the
integer part of the product of the day of year by 0.032, taken in exact
arithmetic as the truncating quotient of `32 * doy` by `1000`. -/
def month_guess (doy : Int) : Int := Int.tdiv (32 * doy) 1000

/-- Source: `ymd_date ydoy_date::to_ymd() const`. -/
def ydoy_date.to_ymd (self : ydoy_date) : Option ymd_date :=
  let doy : Int := self.__doy.m_doy
  let guess : Int := month_guess doy
  let leap : Int := b2i self.__year.is_leap
  (month_day_at leap (guess + 1)).bind fun c1 =>
    let more : Int := b2i (decide (doy - c1 > 0))
    (month_day_at leap (guess + more)).map fun c2 =>
      { __year := self.__year,
        __month := ⟨guess + more + 1⟩,
        __dom := ⟨to_int (doy - c2)⟩ }

/-! ## Durations (`dtfund.hpp`) -/

/-- Source: `class seconds`: a wrapped `long`. -/
structure seconds where
  m_sec : Int
deriving DecidableEq, Repr

/-- Source: `seconds::max_in_day { 86400L }`. -/
def seconds.max_in_day : Int := 86400

/-- Source: `int seconds::remove_days()`: the returned day count and the object
after the call. -/
def seconds.remove_days (self : seconds) : Int × seconds :=
  let d : Int := to_int (Int.tdiv self.m_sec seconds.max_in_day)
  (d, ⟨Int.tmod self.m_sec seconds.max_in_day⟩)

/-- Source: `class milliseconds`: a wrapped `long`. -/
structure milliseconds where
  m_msec : Int
deriving DecidableEq, Repr

/-- Source: `milliseconds::max_in_day { 86400L * 1000L }`. -/
def milliseconds.max_in_day : Int := 86400 * 1000

/-- Source: `int milliseconds::remove_days()`: the returned day count and the
object after the call. -/
def milliseconds.remove_days (self : milliseconds) : Int × milliseconds :=
  let day : Int := to_int (Int.tdiv self.m_msec milliseconds.max_in_day)
  (day, ⟨Int.tmod self.m_msec milliseconds.max_in_day⟩)

/-- Source: `class microseconds`: a wrapped `long`. -/
structure microseconds where
  m_msec : Int
deriving DecidableEq, Repr

/-- Source: `microseconds::max_in_day { 86400L * 1000000L }`. -/
def microseconds.max_in_day : Int := 86400 * 1000000

/-- Source: `int microseconds::remove_days()`: the returned day count and the
object after the call. -/
def microseconds.remove_days (self : microseconds) : Int × microseconds :=
  let day : Int := to_int (Int.tdiv self.m_msec microseconds.max_in_day)
  (day, ⟨Int.tmod self.m_msec microseconds.max_in_day⟩)

/-! ## Durations: the remaining members (`dtfund.hpp`) -/

/-- Source: `class hours`: a wrapped `int`. -/
structure hours where
  m_hours : Int
deriving DecidableEq, Repr

/-- Source: `class minutes`: a wrapped `int`. -/
structure minutes where
  m_min : Int
deriving DecidableEq, Repr

/-- Smallest value of a `long` (64-bit two's complement). -/
def long_min : Int := -9223372036854775808

/-- The C++ operator `/` on two `long` values: undefined (`none`) for a zero
divisor and for the one overflowing quotient, `long_min / -1`; the truncating
quotient otherwise. -/
def long_div (a b : Int) : Option Int :=
  if b = 0 ∨ (a = long_min ∧ b = -1) then none else some (Int.tdiv a b)

/-- Source: `bool seconds::more_than_day() const`. -/
def seconds.more_than_day (self : seconds) : Bool :=
  decide (self.m_sec > seconds.max_in_day)

/-- Source: `int seconds::to_days() const`. -/
def seconds.to_days (self : seconds) : Int :=
  to_int (Int.tdiv self.m_sec seconds.max_in_day)

/-- Source: `seconds seconds::operator/(const seconds& n) const`. -/
def seconds.div (self n : seconds) : Option seconds :=
  (long_div self.m_sec n.m_sec).map seconds.mk

/-- Source: `std::tuple<hours, minutes, seconds, long> seconds::to_hmsf()
const`. -/
def seconds.to_hmsf (self : seconds) : hours × minutes × seconds × Int :=
  (⟨to_int (Int.tdiv self.m_sec 3600)⟩,
   ⟨to_int (Int.tdiv (Int.tmod self.m_sec 3600) 60)⟩,
   ⟨Int.tmod (Int.tmod self.m_sec 3600) 60⟩,
   0)

/-- Source: `milliseconds::operator seconds() const`: the narrowing cast. -/
def milliseconds.to_seconds (self : milliseconds) : seconds :=
  ⟨Int.tdiv self.m_msec 1000⟩

/-- Source: `bool milliseconds::more_than_day() const`. -/
def milliseconds.more_than_day (self : milliseconds) : Bool :=
  decide (self.m_msec > milliseconds.max_in_day)

/-- Source: `int milliseconds::to_days() const`. -/
def milliseconds.to_days (self : milliseconds) : Int :=
  to_int (Int.tdiv self.m_msec milliseconds.max_in_day)

/-- Source: `milliseconds milliseconds::operator/(const milliseconds& sc)`. -/
def milliseconds.div (self sc : milliseconds) : Option milliseconds :=
  (long_div self.m_msec sc.m_msec).map milliseconds.mk

/-- Source: `std::tuple<hours, minutes, seconds, long>
milliseconds::to_hmsf() const`. -/
def milliseconds.to_hmsf (self : milliseconds) :
    hours × minutes × seconds × Int :=
  let hr : Int := Int.tdiv self.m_msec 3600000
  let mn : Int := Int.tdiv (Int.tmod self.m_msec 3600000) 60000
  let sc : Int :=
    Int.tdiv (Int.tmod (Int.tmod self.m_msec 3600000) 60000) 1000
  let ms : Int := self.m_msec - ((hr * 60 + mn) * 60 + sc) * 1000
  (⟨to_int hr⟩, ⟨to_int mn⟩, ⟨sc⟩, ms)

/-- Source: `microseconds::operator milliseconds() const`: the narrowing
cast. -/
def microseconds.to_milliseconds (self : microseconds) : milliseconds :=
  ⟨Int.tdiv self.m_msec 1000⟩

/-- Source: `microseconds::operator seconds() const`: the narrowing cast. -/
def microseconds.to_seconds (self : microseconds) : seconds :=
  ⟨Int.tdiv self.m_msec 1000000⟩

/-- Source: `bool microseconds::more_than_day() const`. -/
def microseconds.more_than_day (self : microseconds) : Bool :=
  decide (self.m_msec > microseconds.max_in_day)

/-- Source: `int microseconds::to_days() const`. -/
def microseconds.to_days (self : microseconds) : Int :=
  to_int (Int.tdiv self.m_msec microseconds.max_in_day)

/-- Source: `microseconds microseconds::operator/(const microseconds& sc)`. -/
def microseconds.div (self sc : microseconds) : Option microseconds :=
  (long_div self.m_msec sc.m_msec).map microseconds.mk

/-- Source: `std::tuple<hours, minutes, seconds, long>
microseconds::to_hmsf() const`. -/
def microseconds.to_hmsf (self : microseconds) :
    hours × minutes × seconds × Int :=
  let hr : Int := Int.tdiv self.m_msec 3600000000
  let mn : Int := Int.tdiv (Int.tmod self.m_msec 3600000000) 60000000
  let sc : Int :=
    Int.tdiv (Int.tmod (Int.tmod self.m_msec 3600000000) 60000000) 1000000
  let ns : Int := self.m_msec - ((hr * 60 + mn) * 60 + sc) * 1000000
  (⟨to_int hr⟩, ⟨to_int mn⟩, ⟨sc⟩, ns)

/-- Source: `modified_julian_day::operator-(const modified_julian_day&)`. -/
def modified_julian_day.sub (self mjd : modified_julian_day) :
    modified_julian_day :=
  ⟨self.m_mjd - mjd.m_mjd⟩

/-- The duration types accepted by `mjd_sec_diff` (`S::is_of_sec_type`), with
the members the template uses: `S::max_in_day` and the constructor from a
`long`. -/
class is_of_sec_type (S : Type) where
  max_in_day : Int
  of_long : Int → S

instance : is_of_sec_type seconds := ⟨seconds.max_in_day, seconds.mk⟩

instance : is_of_sec_type milliseconds :=
  ⟨milliseconds.max_in_day, milliseconds.mk⟩

instance : is_of_sec_type microseconds :=
  ⟨microseconds.max_in_day, microseconds.mk⟩

/-- Source: `template<typename S> S mjd_sec_diff(modified_julian_day d1,
modified_julian_day d2)`. -/
def mjd_sec_diff (S : Type) [is_of_sec_type S] (d1 d2 : modified_julian_day) :
    S :=
  let d : modified_julian_day := d1.sub d2
  is_of_sec_type.of_long (d.m_mjd * is_of_sec_type.max_in_day S)

/-! ## Validity checks (`dtfund.hpp`, `dtfund.cpp`) -/

/-- Source: `bool month::is_valid() const`. -/
def month.is_valid (self : month) : Bool :=
  decide (self.m_month > 0) && decide (self.m_month ≤ 12)

/-- The table read `mtab[i]`; an index outside the table is an out-of-bounds
read (`none`). -/
def mtab_at (i : Int) : Option Int :=
  if 0 ≤ i then mtab.get? i.toNat else none

/-- Source: `bool day_of_month::is_valid(year y, month m) const`; `none` is an
out-of-bounds read of the month-length table. -/
def day_of_month.is_valid (self : day_of_month) (y : year) (m : month) :
    Option Bool :=
  if self.m_dom ≤ 0 ∨ self.m_dom ≥ 32 then some false
  else if !m.is_valid then some false
  else
    let iy : Int := y.m_year
    let im : Int := m.m_month
    let ly : Int := b2i (decide (im = 2) && is_leap iy)
    (mtab_at (im - 1)).map fun t => decide (self.m_dom ≤ t + ly)

/-! ## Month names (`dtfund.hpp`, `dtfund.cpp`)

A C string is the list of the codes of its characters before the terminating
NUL; the character at index `length` is the terminator, and an index past it
is outside the string. -/

/-- Source: `month::short_names[]`. -/
def month.short_names : List String :=
  ["Jan", "Feb", "Mar", "Apr", "May", "Jun",
   "Jul", "Aug", "Sep", "Oct", "Nov", "Dec"]

/-- Source: `month::long_names[]`. -/
def month.long_names : List String :=
  ["January", "February", "March", "April", "May", "June",
   "July", "August", "September", "October", "November", "December"]

/-- The character codes of a string literal. -/
def c_str (s : String) : List Nat := s.data.map Char.toNat

/-- Source: `std::strlen`. -/
def strlen (s : List Nat) : Nat := s.length

/-- The read `str[i]`: a character, the terminating NUL at index `length`, or
an out-of-bounds read (`none`) past it. -/
def char_at (s : List Nat) (i : Nat) : Option Nat :=
  if i < s.length then s.get? i else if i = s.length then some 0 else none

/-- Source: `std::tolower` in the default "C" locale, on character codes. -/
def tolower (c : Nat) : Nat := if 65 ≤ c ∧ c ≤ 90 then c + 32 else c

/-- The loop of `__lower_strncmp__`, from index `i` with `k` iterations left:
`1` at the first index where the lowered characters differ, `0` when there is
none. -/
def lower_strncmp_loop (str1 str2 : List Nat) : Nat → Nat → Option Int
  | _, 0 => some 0
  | i, k + 1 =>
    match char_at str1 i, char_at str2 i with
    | some a, some b =>
      if ¬ (tolower a = tolower b) then some 1
      else lower_strncmp_loop str1 str2 (i + 1) k
    | _, _ => none

/-- Source: `int __lower_strncmp__(const char *str1, const char *str2,
std::size_t n = 0)`. -/
def __lower_strncmp__ (str1 str2 : List Nat) (n : Nat) : Option Int :=
  let n1 : Nat := if n = 0 then max (strlen str1) (strlen str2) else n
  lower_strncmp_loop str1 str2 0 n1

/-- The search loops of `month::month(const char*)` over a table of names,
from index `i`: the value left in `m_month` (`0` when no name matches). -/
def month_search_names (str : List Nat) (n : Nat) :
    List String → Nat → Option Int
  | [], _ => some 0
  | nm :: rest, i =>
    match __lower_strncmp__ (c_str nm) str n with
    | none => none
    | some r =>
      if r = 0 then some (i + 1)
      else month_search_names str n rest (i + 1)

set_option linter.dupNamespace false in
/-- Source: `month::month(const char* str)`; `none` is an out-of-bounds
read. -/
def month.month (str : List Nat) : Option (Except Exn month) :=
  let found : Option Int :=
    if strlen str = 3 then month_search_names str 3 month.short_names 0
    else if strlen str > 3 then month_search_names str 0 month.long_names 0
    else some 0
  found.map fun m_month =>
    if m_month = 0 ∨ strlen str < 3 then
      .error (.invalid_argument
        ("Failed to set month from string \"" ++
          String.mk (str.map Char.ofNat) ++ "\""))
    else .ok ⟨m_month⟩

/-- Source: `const char* month::short_name() const`; `none` is an
out-of-bounds read of the table of names. -/
def month.short_name (self : ngpt.month) : Option String :=
  if 0 ≤ self.m_month - 1 then
    month.short_names.get? (self.m_month - 1).toNat
  else none

/-- Source: `const char* month::long_name() const`; `none` is an
out-of-bounds read of the table of names. -/
def month.long_name (self : ngpt.month) : Option String :=
  if 0 ≤ self.m_month - 1 then
    month.long_names.get? (self.m_month - 1).toNat
  else none

/-! ## Month names (specification side) -/

/-- Two C strings are equal up to ASCII letter case: same length and the same
characters once lowered. -/
def eq_ignore_case (s t : List Nat) : Prop :=
  s.map tolower = t.map tolower

instance (s t : List Nat) : Decidable (eq_ignore_case s t) := by
  unfold eq_ignore_case; infer_instance

/-- An ASCII C string: every character code is in `1..127`. -/
def is_ascii (s : List Nat) : Prop := ∀ c ∈ s, 1 ≤ c ∧ c ≤ 127

instance (s : List Nat) : Decidable (is_ascii s) := by
  unfold is_ascii; infer_instance

/-! ## Validity of calendar dates (specification side) -/

/-- Length in days of month `m` of year `y`: the table `mtab`, plus one for
the February of a leap year. -/
def month_length (y m : Int) : Int :=
  mtab.getD (m - 1).toNat 0 + b2i (decide (m = 2) && is_leap y)

/-- A valid calendar date: month in `1..12` and day within the month. -/
def valid_ymd (y m d : Int) : Prop :=
  1 ≤ m ∧ m ≤ 12 ∧ 1 ≤ d ∧ d ≤ month_length y m

instance (y m d : Int) : Decidable (valid_ymd y m d) := by
  unfold valid_ymd; infer_instance

/-- The closed formula of `cal2mjd`, without the input checks. -/
def cal2mjd_formula (iy im id : Int) : Int :=
  let my : Int := Int.tdiv (im - 14) 12
  let iypmy : Int := iy + my
  Int.tdiv (1461 * (iypmy + 4800)) 4
    + Int.tdiv (367 * (im - 2 - 12 * my)) 12
    - Int.tdiv (3 * Int.tdiv (iypmy + 4900) 100) 4
    + id - 2432076

/-! ## Intermediate values and DEBUG assertions (`dtfund.cpp`) -/

/-- The two `long` values that `modified_julian_day::to_ydoy()` narrows to
`int`: `years_so_far + delta_yrs` and `days_left - 365*delta_yrs + 1`. -/
def modified_julian_day.to_ydoy_long (self : modified_julian_day) :
    Int × Int :=
  let days_fr_jan1_1901 : Int := self.m_mjd - jan11901
  let num_four_yrs : Int := Int.tdiv days_fr_jan1_1901 1461
  let years_so_far : Int := 1901 + 4 * num_four_yrs
  let days_left : Int := days_fr_jan1_1901 - 1461 * num_four_yrs
  let delta_yrs : Int := Int.tdiv days_left 365 - Int.tdiv days_left 1460
  (years_so_far + delta_yrs, days_left - 365 * delta_yrs + 1)

/-- The first DEBUG assertion of `ydoy_date::to_ymd()`:
`assert( guess >= 0 && guess < 11 )`. -/
def ydoy_date.to_ymd_assert_guess (self : ydoy_date) : Bool :=
  let guess : Int := month_guess self.__doy.m_doy
  decide (guess ≥ 0) && decide (guess < 11)

/-- The second DEBUG assertion of `ydoy_date::to_ymd()`:
`assert( guess+more >= 0 && guess+more < 12 )`; `none` is an out-of-bounds
read of the table in the computation of `more`. -/
def ydoy_date.to_ymd_assert_month (self : ydoy_date) : Option Bool :=
  let doy : Int := self.__doy.m_doy
  let guess : Int := month_guess doy
  let leap : Int := b2i self.__year.is_leap
  (month_day_at leap (guess + 1)).map fun c1 =>
    let more : Int := b2i (decide (doy - c1 > 0))
    decide (guess + more ≥ 0) && decide (guess + more < 12)

/-! ## Durations: construction from hours, minutes and a count -/

set_option linter.dupNamespace false in
/-- Source: `seconds::seconds(hours h, minutes m, seconds c)`. -/
def seconds.seconds (h : hours) (m : minutes) (c : ngpt.seconds) :
    ngpt.seconds :=
  ⟨c.m_sec + m.m_min * 60 + h.m_hours * 3600⟩

set_option linter.dupNamespace false in
/-- Source: `milliseconds::milliseconds(hours h, minutes m, milliseconds
c)`. -/
def milliseconds.milliseconds (h : hours) (m : minutes)
    (c : ngpt.milliseconds) : ngpt.milliseconds :=
  ⟨c.m_msec + m.m_min * 60 * 1000 + h.m_hours * 3600 * 1000⟩

set_option linter.dupNamespace false in
/-- Source: `microseconds::microseconds(hours h, minutes m, microseconds
c)`. -/
def microseconds.microseconds (h : hours) (m : minutes)
    (c : ngpt.microseconds) : ngpt.microseconds :=
  ⟨c.m_msec + (m.m_min * 60 + h.m_hours * 3600) * 1000 * 1000⟩

/-! ## The forward formula read with floor division -/

/-- The formula of `cal2mjd` with every integer division, the one of
`my = (im - 14) / 12` included, read as floor division instead of the
truncating division of C++; stated for comparison with `cal2mjd_formula`. -/
def cal2mjd_formula_floored (iy im id : Int) : Int :=
  let my : Int := (im - 14) / 12
  let iypmy : Int := iy + my
  (1461 * (iypmy + 4800)) / 4
    + (367 * (im - 2 - 12 * my)) / 12
    - (3 * ((iypmy + 4900) / 100)) / 4
    + id - 2432076

end ngpt

/-! # Theorems -/

set_option linter.unusedVariables false

namespace ngpt

/-! ## Truncating division and narrowing casts -/

theorem tmod_eq_zero_iff (a b : Int) : Int.tmod a b = 0 ↔ a % b = 0 := by
  constructor
  · intro h
    exact Int.emod_eq_zero_of_dvd (Int.dvd_of_tmod_eq_zero h)
  · intro h
    exact Int.tmod_eq_zero_of_dvd (Int.dvd_of_emod_eq_zero h)

theorem tdiv_eq (a b : Int) (hb : 0 < b) :
    Int.tdiv a b = if 0 ≤ a then a / b else -((-a) / b) := by
  split_ifs with h
  · exact Int.tdiv_eq_ediv h (le_of_lt hb)
  · have h2 : Int.tdiv (-a) b = (-a) / b :=
      Int.tdiv_eq_ediv (by omega) (le_of_lt hb)
    rw [← h2, Int.neg_tdiv]; simp

theorem tdiv_of_nonneg (a b : Int) (ha : 0 ≤ a) (hb : 0 < b) :
    Int.tdiv a b = a / b := by
  rw [tdiv_eq a b hb, if_pos ha]

theorem tdiv_of_nonpos (a b : Int) (ha : a ≤ 0) (hb : 0 < b) :
    Int.tdiv a b = -((-a) / b) := by
  rw [tdiv_eq a b hb]
  split_ifs with h
  · have h0 : a = 0 := by omega
    subst h0; simp
  · rfl

theorem tmod_eq_sub (a b : Int) : Int.tmod a b = a - b * Int.tdiv a b := by
  have h := Int.tdiv_add_tmod a b
  omega

theorem to_int_eq (x : Int) (h1 : -2147483648 ≤ x) (h2 : x < 2147483648) :
    to_int x = x := by
  unfold to_int; omega

/-- The leap-year rule in terms of the Euclidean remainder. -/
theorem is_leap_iff (y : Int) :
    is_leap y = true ↔ y % 4 = 0 ∧ (y % 100 ≠ 0 ∨ y % 400 = 0) := by
  simp [is_leap, tmod_eq_zero_iff]

/-! ## The input checks of `cal2mjd` -/

theorem month_cases (m : Int) (h1 : 1 ≤ m) (h2 : m ≤ 12) :
    m = 1 ∨ m = 2 ∨ m = 3 ∨ m = 4 ∨ m = 5 ∨ m = 6 ∨ m = 7 ∨ m = 8 ∨ m = 9 ∨
      m = 10 ∨ m = 11 ∨ m = 12 := by
  omega

/-- The function `cal2mjd` is its closed formula guarded by the validity of the
date. -/
theorem cal2mjd_eq (y m d : Int) :
    cal2mjd y m d =
      if m < 1 ∨ m > 12 then
        .error (.out_of_range "ngpt::cal2mjd -> Invalid Month.")
      else if d < 1 ∨ d > month_length y m then
        .error (.out_of_range "ngpt::cal2mjd -> Invalid Day of Month.")
      else .ok (cal2mjd_formula y m d) := by
  have hly : month_length y m = mtab.getD (m - 1).toNat 0 +
      b2i (decide (m = 2) && decide (Int.tmod y 4 = 0) &&
        (decide (Int.tmod y 100 ≠ 0) || decide (Int.tmod y 400 = 0))) := by
    simp [month_length, is_leap, Bool.and_assoc]
  rw [hly]
  rfl

theorem cal2mjd_of_valid (y m d : Int) (hv : valid_ymd y m d) :
    cal2mjd y m d = .ok (cal2mjd_formula y m d) := by
  obtain ⟨h1, h2, h3, h4⟩ := hv
  rw [cal2mjd_eq, if_neg (by omega), if_neg (by omega)]

/-! ## The closed formulas over floor division

With `Y` the year counted from March of -4800 and `mp` the month counted from
March (March is 1, February is 12), every division of `cal2mjd` has a
non-negative numerator, so truncation is the floor. -/

theorem cal2mjd_formula_floor (y m d Y mp : Int) (hm1 : 1 ≤ m) (hm2 : m ≤ 12)
    (hY : Y = if m ≤ 2 then y + 4799 else y + 4800)
    (hmp : mp = if m ≤ 2 then m + 10 else m - 2) (hY0 : 0 ≤ Y) :
    cal2mjd_formula y m d =
      (1461 * Y) / 4 + (367 * mp) / 12 - (3 * ((Y + 100) / 100)) / 4 + d
        - 2432076 := by
  have hmy : Int.tdiv (m - 14) 12 = if m ≤ 2 then -1 else 0 := by
    rw [tdiv_of_nonpos _ _ (by omega) (by norm_num)]
    split_ifs <;> omega
  simp only [cal2mjd_formula, hmy]
  have a1 : y + (if m ≤ 2 then -1 else 0) + 4800 = Y := by
    split_ifs at hY ⊢ <;> omega
  have a2 : m - 2 - 12 * (if m ≤ 2 then -1 else 0) = mp := by
    split_ifs at hmp ⊢ <;> omega
  have a3 : y + (if m ≤ 2 then -1 else 0) + 4900 = Y + 100 := by omega
  have hmp0 : 0 ≤ mp := by split_ifs at hmp <;> omega
  rw [a1, a2, a3,
    tdiv_of_nonneg (1461 * Y) 4 (by omega) (by norm_num),
    tdiv_of_nonneg (367 * mp) 12 (by omega) (by norm_num),
    tdiv_of_nonneg (Y + 100) 100 (by omega) (by norm_num),
    tdiv_of_nonneg (3 * ((Y + 100) / 100)) 4 (by omega) (by norm_num)]

/-- From a non-negative shifted day number on, every division of `to_ymd` has
a non-negative numerator. -/
theorem to_ymd_floor (mjd l0 n l1 i l2 k l3 : Int) (hl0 : l0 = mjd + 2468570)
    (h0 : 0 ≤ l0) (hn : n = (4 * l0) / 146097)
    (hl1 : l1 = l0 - (146097 * n + 3) / 4)
    (hi : i = (4000 * (l1 + 1)) / 1461001)
    (hl2 : l2 = l1 - ((1461 * i) / 4 - 31))
    (hk : k = (80 * l2) / 2447) (hl3 : l3 = k / 11) :
    (modified_julian_day.mk mjd).to_ymd =
      { __year := ⟨to_int (100 * (n - 49) + i + l3)⟩,
        __month := ⟨to_int (k + 2 - 12 * l3)⟩,
        __dom := ⟨to_int (l2 - (2447 * k) / 80)⟩ } := by
  subst hl3 hk hl2 hi hl1 hn hl0
  have e0 : mjd + (68569 + 2400000 + 1) = mjd + 2468570 := by omega
  simp only [modified_julian_day.to_ymd, e0]
  have e1 : Int.tdiv (4 * (mjd + 2468570)) 146097 = (4 * (mjd + 2468570)) / 146097 :=
    tdiv_of_nonneg _ _ (by omega) (by norm_num)
  rw [e1]
  generalize hn : (4 * (mjd + 2468570)) / 146097 = n
  have e2 : Int.tdiv (146097 * n + 3) 4 = (146097 * n + 3) / 4 :=
    tdiv_of_nonneg _ _ (by omega) (by norm_num)
  rw [e2]
  generalize hl1 : mjd + 2468570 - (146097 * n + 3) / 4 = l1
  have e3 : Int.tdiv (4000 * (l1 + 1)) 1461001 = (4000 * (l1 + 1)) / 1461001 :=
    tdiv_of_nonneg _ _ (by omega) (by norm_num)
  rw [e3]
  generalize hi : (4000 * (l1 + 1)) / 1461001 = i
  have e4 : Int.tdiv (1461 * i) 4 = (1461 * i) / 4 :=
    tdiv_of_nonneg _ _ (by omega) (by norm_num)
  rw [e4]
  generalize hl2 : l1 - ((1461 * i) / 4 - 31) = l2
  have e5 : Int.tdiv (80 * l2) 2447 = (80 * l2) / 2447 :=
    tdiv_of_nonneg _ _ (by omega) (by norm_num)
  rw [e5]
  generalize hk : (80 * l2) / 2447 = k
  have e6 : Int.tdiv (2447 * k) 80 = (2447 * k) / 80 :=
    tdiv_of_nonneg _ _ (by omega) (by norm_num)
  have e7 : Int.tdiv k 11 = k / 11 :=
    tdiv_of_nonneg _ _ (by omega) (by norm_num)
  rw [e6, e7]

/-- The century and year-of-century steps of `to_ymd` undo the year terms of
`cal2mjd`; `t` is the day count from the month and day terms. -/
theorem year_part (Y t l0 n l1 i l2 : Int) (ht : 31 ≤ t) (ht2 : t ≤ 396)
    (ht3 : ¬ ((Y + 1) % 4 = 0 ∧ ((Y + 1) % 100 ≠ 0 ∨ (Y + 1) % 400 = 0)) →
      t ≤ 395)
    (hl0 : l0 = (1461 * Y) / 4 + t - (3 * ((Y + 100) / 100)) / 4 - 2432076
      + 2468570)
    (hn : n = (4 * l0) / 146097)
    (hl1 : l1 = l0 - (146097 * n + 3) / 4)
    (hi : i = (4000 * (l1 + 1)) / 1461001)
    (hl2 : l2 = l1 - ((1461 * i) / 4 - 31)) :
    n = (Y + 100) / 100 ∧ i = (Y + 100) % 100 ∧ l2 = t := by
  have h1 : (Y + 100) / 100 % 4 = 0 ∨ (Y + 100) / 100 % 4 = 1 ∨
      (Y + 100) / 100 % 4 = 2 ∨ (Y + 100) / 100 % 4 = 3 := by omega
  have h2 : Y % 4 = 0 ∨ Y % 4 = 1 ∨ Y % 4 = 2 ∨ Y % 4 = 3 := by omega
  have h4 : (Y + 100) % 100 = 99 ∨ (Y + 100) % 100 ≤ 98 := by omega
  have e1 : n = (Y + 100) / 100 := by
    rcases h1 with h1 | h1 | h1 | h1 <;> rcases h2 with h2 | h2 | h2 | h2 <;>
      rcases h4 with h4 | h4 <;> omega
  have e2 : i = (Y + 100) % 100 := by
    rcases h1 with h1 | h1 | h1 | h1 <;> rcases h2 with h2 | h2 | h2 | h2 <;>
      rcases h4 with h4 | h4 <;> omega
  refine ⟨e1, e2, ?_⟩
  rcases h1 with h1 | h1 | h1 | h1 <;> rcases h2 with h2 | h2 | h2 | h2 <;> omega

/-- The month and day steps of `to_ymd` undo the month and day terms of
`cal2mjd`. -/
theorem month_part (mp d t k : Int) (hm : 1 ≤ mp) (hm2 : mp ≤ 12) (hd : 1 ≤ d)
    (hd2 : d ≤ 31) (hd4 : (mp = 2 ∨ mp = 4 ∨ mp = 7 ∨ mp = 9) → d ≤ 30)
    (hd5 : mp = 12 → d ≤ 29)
    (ht : t = (367 * mp) / 12 + d) (hk : k = (80 * t) / 2447) :
    k = mp ∧ t - (2447 * k) / 80 = d := by
  rcases month_cases mp hm hm2 with
    h | h | h | h | h | h | h | h | h | h | h | h <;> subst h <;> omega

/-- Bounds on the day of month of a valid date, month by month. -/
theorem valid_ymd_bounds (y m d : Int) (hv : valid_ymd y m d) :
    1 ≤ m ∧ m ≤ 12 ∧ 1 ≤ d ∧ d ≤ 31 ∧
      ((m = 4 ∨ m = 6 ∨ m = 9 ∨ m = 11) → d ≤ 30) ∧ (m = 2 → d ≤ 29) ∧
      (m = 2 → ¬ (y % 4 = 0 ∧ (y % 100 ≠ 0 ∨ y % 400 = 0)) → d ≤ 28) := by
  obtain ⟨h1, h2, h3, h4⟩ := hv
  have hl := is_leap_iff y
  rcases month_cases m h1 h2 with
    h | h | h | h | h | h | h | h | h | h | h | h <;> subst h <;>
    cases hb : is_leap y <;>
    simp [month_length, mtab, b2i, hb] at h4 <;>
    simp [hb] at hl <;> omega

/-- The steps of `to_ymd` from day `L` (counted from the shifted origin) give a
valid March-based date whose forward formula is `L` again. -/
theorem inverse_part (L n l1 i l2 k l3 dom mo Y : Int) (hL : 36525 ≤ L)
    (hn : n = (4 * L) / 146097)
    (hl1 : l1 = L - (146097 * n + 3) / 4)
    (hi : i = (4000 * (l1 + 1)) / 1461001)
    (hl2 : l2 = l1 - ((1461 * i) / 4 - 31))
    (hk : k = (80 * l2) / 2447) (hl3 : l3 = k / 11)
    (hdom : dom = l2 - (2447 * k) / 80)
    (hmo : mo = k + 2 - 12 * l3)
    (hY : Y = 100 * n + i - 100) :
    1 ≤ n ∧ 0 ≤ i ∧ i ≤ 99 ∧ 1 ≤ k ∧ k ≤ 12 ∧ (l3 = if k ≤ 10 then 0 else 1) ∧ 1 ≤ dom ∧ dom ≤ 31 ∧
      ((k = 2 ∨ k = 4 ∨ k = 7 ∨ k = 9) → dom ≤ 30) ∧ (k = 12 → dom ≤ 29) ∧
      (k = 12 → ¬ ((Y + 1) % 4 = 0 ∧ ((Y + 1) % 100 ≠ 0 ∨ (Y + 1) % 400 = 0)) → dom ≤ 28) ∧
      L = (1461 * Y) / 4 + (367 * k) / 12 - (3 * ((Y + 100) / 100)) / 4 + dom + 36494 := by
  have hn1 : 1 ≤ n := by omega
  have h1 : n % 4 = 0 ∨ n % 4 = 1 ∨ n % 4 = 2 ∨ n % 4 = 3 := by omega
  have hl1b : 0 ≤ l1 ∧ l1 ≤ 36524 ∧ (l1 = 36524 → n % 4 = 0) := by
    rcases h1 with h1 | h1 | h1 | h1 <;> omega
  have hib : 0 ≤ i ∧ i ≤ 99 := by omega
  have h2 : i % 4 = 0 ∨ i % 4 = 1 ∨ i % 4 = 2 ∨ i % 4 = 3 := by omega
  have hl2b : 31 ≤ l2 ∧ l2 ≤ 396 ∧ (l2 = 396 → i % 4 = 3 ∧ (i = 99 → n % 4 = 0)) := by
    rcases h2 with h2 | h2 | h2 | h2 <;> omega
  have hkb : 1 ≤ k ∧ k ≤ 12 := by omega
  have hdomb : 1 ≤ dom ∧ dom ≤ 31 ∧
      ((k = 2 ∨ k = 4 ∨ k = 7 ∨ k = 9) → dom ≤ 30) ∧ (k = 12 → dom ≤ 29) ∧ (k = 12 → dom = 29 → l2 = 396) 
      ∧ (2447 * k) / 80 = (367 * k) / 12 := by
    rcases month_cases k hkb.1 hkb.2 with
      h | h | h | h | h | h | h | h | h | h | h | h <;> subst h <;> omega
  refine ⟨hn1, hib.1, hib.2, hkb.1, hkb.2, ?_, hdomb.1, hdomb.2.1, hdomb.2.2.1, hdomb.2.2.2.1, ?_, ?_⟩
  · split_ifs <;> omega
  · intro hk12 hnl
    have := hdomb.2.2.2.2.1 hk12
    rcases h1 with h1 | h1 | h1 | h1 <;> rcases h2 with h2 | h2 | h2 | h2 <;> omega
  · have := hdomb.2.2.2.2.2
    rcases h1 with h1 | h1 | h1 | h1 <;> rcases h2 with h2 | h2 | h2 | h2 <;> omega

/-- Converse of `valid_ymd_bounds`. -/
theorem valid_ymd_of_bounds (y m d : Int) (h1 : 1 ≤ m) (h2 : m ≤ 12)
    (h3 : 1 ≤ d) (h4 : d ≤ 31)
    (h5 : (m = 4 ∨ m = 6 ∨ m = 9 ∨ m = 11) → d ≤ 30) (h6 : m = 2 → d ≤ 29)
    (h7 : m = 2 → ¬ (y % 4 = 0 ∧ (y % 100 ≠ 0 ∨ y % 400 = 0)) → d ≤ 28) :
    valid_ymd y m d := by
  refine ⟨h1, h2, h3, ?_⟩
  have hl := is_leap_iff y
  rcases month_cases m h1 h2 with
    h | h | h | h | h | h | h | h | h | h | h | h <;> subst h <;>
    cases hb : is_leap y <;>
    simp [month_length, mtab, b2i, hb] <;>
    simp [hb] at hl <;> omega

/-! ## Order of the forward formula -/

/-- The year terms of `cal2mjd` grow by a year's length from one March-based
year to the next, and by more than a year over two or more. -/
theorem year_terms_mono (Y1 Y2 : Int) (h : Y1 < Y2) :
    (1461 * Y1) / 4 - (3 * ((Y1 + 100) / 100)) / 4 + 365 ≤
        (1461 * Y2) / 4 - (3 * ((Y2 + 100) / 100)) / 4 ∧
    (((Y1 + 1) % 4 = 0 ∧ ((Y1 + 1) % 100 ≠ 0 ∨ (Y1 + 1) % 400 = 0)) →
      (1461 * Y1) / 4 - (3 * ((Y1 + 100) / 100)) / 4 + 366 ≤
        (1461 * Y2) / 4 - (3 * ((Y2 + 100) / 100)) / 4) := by
  have hc : Y2 = Y1 + 1 ∨ Y1 + 2 ≤ Y2 := by omega
  rcases hc with hc | hc
  · subst hc
    have h1 : (Y1 + 100) / 100 % 4 = 0 ∨ (Y1 + 100) / 100 % 4 = 1 ∨
      (Y1 + 100) / 100 % 4 = 2 ∨ (Y1 + 100) / 100 % 4 = 3 := by omega
    have h2 : Y1 % 4 = 0 ∨ Y1 % 4 = 1 ∨ Y1 % 4 = 2 ∨ Y1 % 4 = 3 := by omega
    have h4 : (Y1 + 100) % 100 = 99 ∨ (Y1 + 100) % 100 ≤ 98 := by omega
    rcases h1 with h1 | h1 | h1 | h1 <;> rcases h2 with h2 | h2 | h2 | h2 <;>
      rcases h4 with h4 | h4 <;> omega
  · omega

/-- Within a March-based year, a later month starts after the last day of an
earlier one. -/
theorem month_terms_mono (mp1 mp2 d1 d2 : Int) (hm : 1 ≤ mp1) (hm2 : mp2 ≤ 12)
    (hlt : mp1 < mp2) (hd2 : d1 ≤ 31)
    (hd4 : (mp1 = 2 ∨ mp1 = 4 ∨ mp1 = 7 ∨ mp1 = 9) → d1 ≤ 30) (hd : 1 ≤ d2) :
    (367 * mp1) / 12 + d1 < (367 * mp2) / 12 + d2 := by
  rcases month_cases mp1 hm (by omega) with
    h | h | h | h | h | h | h | h | h | h | h | h <;> subst h <;> omega

/-- The forward formula in March-based form, with the facts about the
March-based year `Y`, month `mp` and day needed to compare two dates. -/
theorem cal2mjd_march_form (y m d : Int) (hv : valid_ymd y m d)
    (hlo : -4800 < y ∨ (y = -4800 ∧ 3 ≤ m)) :
    ∃ Y mp : Int, 0 ≤ Y ∧ 1 ≤ mp ∧ mp ≤ 12 ∧ 12 * Y + mp = 12 * y + m + 57598 ∧
      1 ≤ d ∧ d ≤ 31 ∧ ((mp = 2 ∨ mp = 4 ∨ mp = 7 ∨ mp = 9) → d ≤ 30) ∧
      (mp = 12 → d ≤ 29) ∧
      (mp = 12 → ¬ ((Y + 1) % 4 = 0 ∧ ((Y + 1) % 100 ≠ 0 ∨ (Y + 1) % 400 = 0)) →
        d ≤ 28) ∧
      cal2mjd y m d = .ok ((1461 * Y) / 4 + (367 * mp) / 12
        - (3 * ((Y + 100) / 100)) / 4 + d - 2432076) := by
  obtain ⟨hm1, hm2, hd1, hd2, hd3, hd4, hd5⟩ := valid_ymd_bounds y m d hv
  obtain ⟨Y, hY⟩ : ∃ Y : Int, Y = if m ≤ 2 then y + 4799 else y + 4800 := ⟨_, rfl⟩
  obtain ⟨mp, hmp⟩ : ∃ mp : Int, mp = if m ≤ 2 then m + 10 else m - 2 := ⟨_, rfl⟩
  have hY0 : 0 ≤ Y := by split_ifs at hY <;> omega
  refine ⟨Y, mp, hY0, ?_, ?_, ?_, hd1, hd2, ?_, ?_, ?_, ?_⟩
  · split_ifs at hmp <;> omega
  · split_ifs at hmp <;> omega
  · split_ifs at hmp hY <;> omega
  · split_ifs at hmp <;> omega
  · split_ifs at hmp <;> omega
  · intro h12 hnl
    have hY1 : Y + 1 = y + 4800 := by split_ifs at hmp hY <;> omega
    have hm : m = 2 := by split_ifs at hmp <;> omega
    rw [hY1] at hnl
    apply hd5 hm
    omega
  · rw [cal2mjd_of_valid y m d hv,
      cal2mjd_formula_floor y m d Y mp hm1 hm2 hY hmp hY0]

/-- Lexicographic order of (year, month, day) is the lexicographic order of
the March-based (year, month, day). -/
theorem march_order (y1 m1 d1 y2 m2 d2 Y1 mp1 Y2 mp2 : Int)
    (c1 : 1 ≤ m1) (c2 : m1 ≤ 12) (c3 : 1 ≤ m2) (c4 : m2 ≤ 12)
    (a2 : 1 ≤ mp1) (a3 : mp1 ≤ 12) (b2 : 1 ≤ mp2) (b3 : mp2 ≤ 12)
    (a4 : 12 * Y1 + mp1 = 12 * y1 + m1 + 57598)
    (b4 : 12 * Y2 + mp2 = 12 * y2 + m2 + 57598)
    (hlt : y1 < y2 ∨ (y1 = y2 ∧ (m1 < m2 ∨ (m1 = m2 ∧ d1 < d2)))) :
    Y1 < Y2 ∨ (Y1 = Y2 ∧ mp1 < mp2) ∨ (Y1 = Y2 ∧ mp1 = mp2 ∧ d1 < d2) := by
  omega

/-- Upper bound on the month and day terms of a valid date. -/
theorem month_terms_le (Y mp d : Int) (a2 : 1 ≤ mp) (a3 : mp ≤ 12)
    (a6 : d ≤ 31) (a7 : (mp = 2 ∨ mp = 4 ∨ mp = 7 ∨ mp = 9) → d ≤ 30)
    (a8 : mp = 12 → d ≤ 29)
    (a9 : mp = 12 →
      ¬ ((Y + 1) % 4 = 0 ∧ ((Y + 1) % 100 ≠ 0 ∨ (Y + 1) % 400 = 0)) → d ≤ 28) :
    (367 * mp) / 12 + d ≤ 396 ∧
      (¬ ((Y + 1) % 4 = 0 ∧ ((Y + 1) % 100 ≠ 0 ∨ (Y + 1) % 400 = 0)) →
        (367 * mp) / 12 + d ≤ 395) := by
  constructor
  · clear a9
    rcases month_cases mp a2 a3 with
      h | h | h | h | h | h | h | h | h | h | h | h <;> subst h <;> omega
  · intro hnl
    have a9 := fun h => a9 h hnl
    clear hnl
    rcases month_cases mp a2 a3 with
      h | h | h | h | h | h | h | h | h | h | h | h <;> subst h <;> omega

/-- Year and month from the March-based year, month and the steps of
`to_ymd`. -/
theorem civil_of_march (y m Y mp n i k l3 : Int) (hm1 : 1 ≤ m) (hm2 : m ≤ 12)
    (a2 : 1 ≤ mp) (a3 : mp ≤ 12) (a4 : 12 * Y + mp = 12 * y + m + 57598)
    (en : n = (Y + 100) / 100) (ei : i = (Y + 100) % 100) (ek : k = mp)
    (hl3 : l3 = k / 11) :
    100 * (n - 49) + i + l3 = y ∧ k + 2 - 12 * l3 = m := by
  omega

/-! ## Calendar date to MJD and back -/

/-- C1: for every valid calendar date from -4800-03-01 through 9999-12-31,
`cal2mjd` succeeds and `to_ymd` of the resulting Modified Julian Day is exactly
the date. -/
theorem cal2mjd_to_ymd_round_trip (y m d : Int) (hv : valid_ymd y m d)
    (hlo : -4800 < y ∨ (y = -4800 ∧ 3 ≤ m)) (hhi : y ≤ 9999) :
    ∃ mjd : Int, cal2mjd y m d = .ok mjd ∧
      (modified_julian_day.mk mjd).to_ymd = ⟨⟨y⟩, ⟨m⟩, ⟨d⟩⟩ := by
  obtain ⟨Y, mp, a1, a2, a3, a4, a5, a6, a7, a8, a9, a10⟩ :=
    cal2mjd_march_form y m d hv hlo
  refine ⟨_, a10, ?_⟩
  obtain ⟨t, ht⟩ : ∃ t : Int, t = (367 * mp) / 12 + d := ⟨_, rfl⟩
  obtain ⟨mjd, hmjd⟩ : ∃ mjd : Int, mjd = (1461 * Y) / 4 + (367 * mp) / 12
    - (3 * ((Y + 100) / 100)) / 4 + d - 2432076 := ⟨_, rfl⟩
  rw [← hmjd]
  obtain ⟨l0, el0⟩ : ∃ l0 : Int, l0 = mjd + 2468570 := ⟨_, rfl⟩
  obtain ⟨n, hn⟩ : ∃ n : Int, n = (4 * l0) / 146097 := ⟨_, rfl⟩
  obtain ⟨l1, hl1⟩ : ∃ l1 : Int, l1 = l0 - (146097 * n + 3) / 4 := ⟨_, rfl⟩
  obtain ⟨i, hi⟩ : ∃ i : Int, i = (4000 * (l1 + 1)) / 1461001 := ⟨_, rfl⟩
  obtain ⟨l2, hl2⟩ : ∃ l2 : Int, l2 = l1 - ((1461 * i) / 4 - 31) := ⟨_, rfl⟩
  obtain ⟨k, hk⟩ : ∃ k : Int, k = (80 * l2) / 2447 := ⟨_, rfl⟩
  obtain ⟨l3, hl3⟩ : ∃ l3 : Int, l3 = k / 11 := ⟨_, rfl⟩
  obtain ⟨tle, tle2⟩ := month_terms_le Y mp d a2 a3 a6 a7 a8 a9
  have hl0 : l0 = (1461 * Y) / 4 + t - (3 * ((Y + 100) / 100)) / 4 - 2432076
      + 2468570 := by omega
  have hl00 : 0 ≤ l0 := by
    clear hn hl1 hi hl2 hk hl3 a9 tle2 a7 a8
    omega
  rw [to_ymd_floor mjd l0 n l1 i l2 k l3 el0 hl00 hn hl1 hi hl2 hk hl3]
  obtain ⟨en, ei, el2⟩ := year_part Y t l0 n l1 i l2 (by omega) (by omega)
    (by rw [ht]; exact tle2) hl0 hn hl1 hi hl2
  obtain ⟨ek, ed⟩ := month_part mp d t k a2 a3 a5 a6 a7 a8 ht (by rw [hk, el2])
  obtain ⟨ey, em⟩ := civil_of_march y m Y mp n i k l3 hv.1 hv.2.1 a2 a3 a4 en ei
    ek hl3
  have edd : l2 - (2447 * k) / 80 = d := by rw [el2]; exact ed
  have hm1 := hv.1
  have hm2 := hv.2.1
  rw [ey, em, edd, to_int_eq y (by omega) (by omega),
    to_int_eq m (by omega) (by omega), to_int_eq d (by omega) (by omega)]

/-- C1, at the leap day of 2000. -/
theorem cal2mjd_to_ymd_round_trip_witness :
    valid_ymd 2000 2 29 ∧
      ∃ mjd : Int, cal2mjd 2000 2 29 = .ok mjd ∧
        (modified_julian_day.mk mjd).to_ymd = ⟨⟨2000⟩, ⟨2⟩, ⟨29⟩⟩ :=
  ⟨by decide,
    cal2mjd_to_ymd_round_trip 2000 2 29 (by decide) (by decide) (by decide)⟩

/-- C3: the conversion is anchored to the MJD epoch: 1858-11-17 is day 0,
2000-01-01 is day 51544, and day 51544 converts back to 2000-01-01. -/
theorem cal2mjd_epoch_anchor :
    cal2mjd 1858 11 17 = .ok 0 ∧ cal2mjd 2000 1 1 = .ok 51544 ∧
      (modified_julian_day.mk 51544).to_ymd = ⟨⟨2000⟩, ⟨1⟩, ⟨1⟩⟩ := by
  exact ⟨rfl, rfl, rfl⟩

/-- C4: `cal2mjd` fails with an out-of-range error exactly when the month is
outside `1..12` or the day is outside `1..L` (`L` the table length of the
month, plus one for February of a leap year), and returns a value exactly
otherwise; `cal2mjd(y, 2, 29)` succeeds exactly for leap `y`, failing for 2021
and succeeding for 2020. -/
theorem cal2mjd_fails_iff_invalid (y m d : Int) :
    ((∃ msg, cal2mjd y m d = .error (.out_of_range msg)) ↔
        (m < 1 ∨ 12 < m ∨ d < 1 ∨ month_length y m < d)) ∧
      ((∃ v, cal2mjd y m d = .ok v) ↔
        ¬ (m < 1 ∨ 12 < m ∨ d < 1 ∨ month_length y m < d)) ∧
      ((∃ v, cal2mjd y 2 29 = .ok v) ↔ is_leap y = true) ∧
      (∃ msg, cal2mjd 2021 2 29 = .error (.out_of_range msg)) ∧
      (∃ v, cal2mjd 2020 2 29 = .ok v) := by
  have key : ∀ y m d : Int,
      ((∃ msg, cal2mjd y m d = .error (.out_of_range msg)) ↔
        (m < 1 ∨ 12 < m ∨ d < 1 ∨ month_length y m < d)) ∧
      ((∃ v, cal2mjd y m d = .ok v) ↔
        ¬ (m < 1 ∨ 12 < m ∨ d < 1 ∨ month_length y m < d)) := by
    intro y m d
    rw [cal2mjd_eq]
    by_cases h1 : m < 1 ∨ m > 12
    · rw [if_pos h1]
      have h : m < 1 ∨ 12 < m ∨ d < 1 ∨ month_length y m < d := by omega
      simp [h]
    · rw [if_neg h1]
      by_cases h2 : d < 1 ∨ d > month_length y m
      · rw [if_pos h2]
        have h : m < 1 ∨ 12 < m ∨ d < 1 ∨ month_length y m < d := by omega
        simp [h]
      · rw [if_neg h2]
        have h : ¬ (m < 1 ∨ 12 < m ∨ d < 1 ∨ month_length y m < d) := by omega
        simp [h]
  refine ⟨(key y m d).1, (key y m d).2, ?_, ?_, ?_⟩
  · rw [(key y 2 29).2]
    cases hb : is_leap y <;> simp [month_length, mtab, b2i, hb]
  · exact (key 2021 2 29).1.mpr (by decide)
  · exact (key 2020 2 29).2.mpr (by decide)

/-- C2: for every Modified Julian Day from -2432045 (-4800-03-01) through
2973483 (9999-12-31), `to_ymd` yields a valid calendar date, and `cal2mjd` of
that date succeeds and returns the day again. -/
theorem to_ymd_cal2mjd_round_trip (mjd : Int) (h1 : -2432045 ≤ mjd)
    (h2 : mjd ≤ 2973483) :
    valid_ymd (modified_julian_day.mk mjd).to_ymd.__year.m_year
        (modified_julian_day.mk mjd).to_ymd.__month.m_month
        (modified_julian_day.mk mjd).to_ymd.__dom.m_dom ∧
      cal2mjd (modified_julian_day.mk mjd).to_ymd.__year.m_year
        (modified_julian_day.mk mjd).to_ymd.__month.m_month
        (modified_julian_day.mk mjd).to_ymd.__dom.m_dom = .ok mjd := by
  obtain ⟨l0, el0⟩ : ∃ l0 : Int, l0 = mjd + 2468570 := ⟨_, rfl⟩
  obtain ⟨n, hn⟩ : ∃ n : Int, n = (4 * l0) / 146097 := ⟨_, rfl⟩
  obtain ⟨l1, hl1⟩ : ∃ l1 : Int, l1 = l0 - (146097 * n + 3) / 4 := ⟨_, rfl⟩
  obtain ⟨i, hi⟩ : ∃ i : Int, i = (4000 * (l1 + 1)) / 1461001 := ⟨_, rfl⟩
  obtain ⟨l2, hl2⟩ : ∃ l2 : Int, l2 = l1 - ((1461 * i) / 4 - 31) := ⟨_, rfl⟩
  obtain ⟨k, hk⟩ : ∃ k : Int, k = (80 * l2) / 2447 := ⟨_, rfl⟩
  obtain ⟨l3, hl3⟩ : ∃ l3 : Int, l3 = k / 11 := ⟨_, rfl⟩
  obtain ⟨dom, hdom⟩ : ∃ dom : Int, dom = l2 - (2447 * k) / 80 := ⟨_, rfl⟩
  obtain ⟨mo, hmo⟩ : ∃ mo : Int, mo = k + 2 - 12 * l3 := ⟨_, rfl⟩
  obtain ⟨Y, hY⟩ : ∃ Y : Int, Y = 100 * n + i - 100 := ⟨_, rfl⟩
  obtain ⟨y, hy⟩ : ∃ y : Int, y = 100 * (n - 49) + i + l3 := ⟨_, rfl⟩
  have hp := inverse_part l0 n l1 i l2 k l3 dom mo Y (by omega) hn hl1 hi hl2 hk hl3 hdom hmo hY
  obtain ⟨p1, p2, p3, p4, p5, p6, p7, p8, p9, p10, p11, p12⟩ := hp
  rw [to_ymd_floor mjd l0 n l1 i l2 k l3 el0 (by omega) hn hl1 hi hl2 hk hl3]
  simp only
  rw [← hy, ← hmo, ← hdom]
  have hn2 : n ≤ 148 := by omega
  clear hn hl1 hi hl2 hk hl3 hdom
  have hl3b : 0 ≤ l3 ∧ l3 ≤ 1 := by split_ifs at p6 <;> omega
  have hmob : 1 ≤ mo ∧ mo ≤ 12 := by split_ifs at p6 <;> omega
  rw [to_int_eq y (by omega) (by omega),
    to_int_eq mo (by omega) (by omega), to_int_eq dom (by omega) (by omega)]
  have hYy : Y = if mo ≤ 2 then y + 4799 else y + 4800 := by
    split_ifs at p6 ⊢ <;> omega
  have hkm : k = if mo ≤ 2 then mo + 10 else mo - 2 := by
    split_ifs at p6 ⊢ <;> omega
  have hv : valid_ymd y mo dom := by
    apply valid_ymd_of_bounds y mo dom hmob.1 hmob.2 p7 p8
    · intro h; apply p9; split_ifs at p6 <;> omega
    · intro h; apply p10; split_ifs at p6 <;> omega
    · intro h hnl
      have hk12 : k = 12 := by split_ifs at p6 <;> omega
      have hY1 : Y + 1 = y + 4800 := by split_ifs at p6 <;> omega
      apply p11 hk12
      rw [hY1]; omega
  refine ⟨hv, ?_⟩
  rw [cal2mjd_of_valid y mo dom hv,
    cal2mjd_formula_floor y mo dom Y k hmob.1 hmob.2 hYy hkm (by omega)]
  congr 1
  omega

/-- C2, at the day 51544 (2000-01-01). -/
theorem to_ymd_cal2mjd_round_trip_witness :
    ((-2432045 : Int) ≤ 51544 ∧ (51544 : Int) ≤ 2973483) ∧
      valid_ymd (modified_julian_day.mk 51544).to_ymd.__year.m_year
        (modified_julian_day.mk 51544).to_ymd.__month.m_month
        (modified_julian_day.mk 51544).to_ymd.__dom.m_dom ∧
      cal2mjd (modified_julian_day.mk 51544).to_ymd.__year.m_year
        (modified_julian_day.mk 51544).to_ymd.__month.m_month
        (modified_julian_day.mk 51544).to_ymd.__dom.m_dom = .ok 51544 :=
  ⟨by decide, to_ymd_cal2mjd_round_trip 51544 (by decide) (by decide)⟩

/-- C5: `cal2mjd` is strictly monotone on valid dates from -4800-03-01 through
9999-12-31: if one date precedes another in (year, month, day) order, both
conversions succeed and the first result is smaller. -/
theorem cal2mjd_strict_mono (y1 m1 d1 y2 m2 d2 : Int)
    (hv1 : valid_ymd y1 m1 d1) (hv2 : valid_ymd y2 m2 d2)
    (hlo1 : -4800 < y1 ∨ (y1 = -4800 ∧ 3 ≤ m1)) (hhi1 : y1 ≤ 9999)
    (hlo2 : -4800 < y2 ∨ (y2 = -4800 ∧ 3 ≤ m2)) (hhi2 : y2 ≤ 9999)
    (hlt : y1 < y2 ∨ (y1 = y2 ∧ (m1 < m2 ∨ (m1 = m2 ∧ d1 < d2)))) :
    ∃ a b : Int, cal2mjd y1 m1 d1 = .ok a ∧ cal2mjd y2 m2 d2 = .ok b ∧ a < b := by
  obtain ⟨Y1, mp1, a1, a2, a3, a4, a5, a6, a7, a8, a9, a10⟩ :=
    cal2mjd_march_form y1 m1 d1 hv1 hlo1
  obtain ⟨Y2, mp2, b1, b2, b3, b4, b5, b6, b7, b8, b9, b10⟩ :=
    cal2mjd_march_form y2 m2 d2 hv2 hlo2
  refine ⟨_, _, a10, b10, ?_⟩
  have hc := march_order y1 m1 d1 y2 m2 d2 Y1 mp1 Y2 mp2 hv1.1 hv1.2.1 hv2.1
    hv2.2.1 a2 a3 b2 b3 a4 b4 hlt
  obtain ⟨t1, t1n⟩ := month_terms_le Y1 mp1 d1 a2 a3 a6 a7 a8 a9
  clear a10 b10 a4 b4 hlt hlo1 hlo2 hhi1 hhi2 a9 b9 a8 b7 b8
  rcases hc with hc | ⟨hc, hc2⟩ | ⟨hc, hc2, hc3⟩
  · obtain ⟨g1, g2⟩ := year_terms_mono Y1 Y2 hc
    have t2 : 31 ≤ (367 * mp2) / 12 + d2 := by omega
    by_cases hl : ((Y1 + 1) % 4 = 0 ∧ ((Y1 + 1) % 100 ≠ 0 ∨ (Y1 + 1) % 400 = 0))
    · have g3 := g2 hl
      clear g2 t1n hl
      omega
    · have t3 := t1n hl
      clear g2 t1n hl
      omega
  · subst hc
    have := month_terms_mono mp1 mp2 d1 d2 a2 b3 hc2 a6 a7 b5
    omega
  · subst hc hc2
    omega

/-- C5, across the leap day of 2000. -/
theorem cal2mjd_strict_mono_witness :
    (valid_ymd 2000 2 29 ∧ valid_ymd 2000 3 1) ∧
      ∃ a b : Int, cal2mjd 2000 2 29 = .ok a ∧ cal2mjd 2000 3 1 = .ok b ∧ a < b :=
  ⟨by decide,
    cal2mjd_strict_mono 2000 2 29 2000 3 1 (by decide) (by decide) (by decide)
      (by decide) (by decide) (by decide) (by decide)⟩

/-! ## The four-year-block algorithm and the cumulative table -/

/-- A converted `bool` is `1` or `0`. -/
theorem b2i_cases (b : Bool) : (b = true ∧ b2i b = 1) ∨ (b = false ∧ b2i b = 0) := by
  cases b <;> simp [b2i]

/-- The cumulative table `month_day` at an index in `0..12`, in closed form. -/
theorem month_day_at_index (lp : Bool) (i : Int) (h0 : 0 ≤ i) (h12 : i ≤ 12) :
    ∃ c : Int, month_day_at (b2i lp) i = some c ∧
      ((i = 0 ∧ c = 0) ∨ (i = 1 ∧ c = 31) ∨
        (2 ≤ i ∧ c = (367 * (i - 1)) / 12 + 29 + b2i lp)) := by
  have hi : i = 0 ∨ i = 1 ∨ i = 2 ∨ i = 3 ∨ i = 4 ∨ i = 5 ∨ i = 6 ∨ i = 7 ∨
      i = 8 ∨ i = 9 ∨ i = 10 ∨ i = 11 ∨ i = 12 := by omega
  rcases hi with h | h | h | h | h | h | h | h | h | h | h | h | h <;> subst h <;>
    cases lp <;> simp [month_day_at, month_day, b2i]

/-- The estimate-then-correct month search of `ydoy_date::to_ymd`, on the
leap flag and the day of year alone. -/
theorem month_search (lp : Bool) (doy : Int) (h1 : 1 ≤ doy)
    (h2 : doy ≤ 365 + b2i lp) :
    ∃ c1 c2 hi : Int,
      month_day_at (b2i lp) (month_guess doy + 1) = some c1 ∧
      month_day_at (b2i lp) (month_guess doy + b2i (decide (doy - c1 > 0)))
        = some c2 ∧
      month_day_at (b2i lp) (month_guess doy + b2i (decide (doy - c1 > 0)) + 1)
        = some hi ∧
      0 ≤ month_guess doy ∧ month_guess doy ≤ 11 ∧
      month_guess doy + b2i (decide (doy - c1 > 0)) ≤ 11 ∧
      0 ≤ c2 ∧ c2 < doy ∧ doy ≤ hi := by
  have hg : month_guess doy = (32 * doy) / 1000 := by
    unfold month_guess
    exact tdiv_of_nonneg _ _ (by omega) (by norm_num)
  obtain ⟨g, hg2⟩ : ∃ g : Int, g = (32 * doy) / 1000 := ⟨_, rfl⟩
  rw [hg, ← hg2]
  have hlp : b2i lp = 0 ∨ b2i lp = 1 := by
    rcases b2i_cases lp with ⟨-, h⟩ | ⟨-, h⟩ <;> omega
  have hgb : 0 ≤ g ∧ g ≤ 11 := by omega
  obtain ⟨c1, e1, v1⟩ := month_day_at_index lp (g + 1) (by omega) (by omega)
  rcases b2i_cases (decide (doy - c1 > 0)) with ⟨hm, hb⟩ | ⟨hm, hb⟩
  · have hm2 : doy - c1 > 0 := by simpa using hm
    have hg11 : g + 1 ≤ 11 := by omega
    obtain ⟨hi, e3, v3⟩ := month_day_at_index lp (g + 1 + 1) (by omega) (by omega)
    refine ⟨c1, c1, hi, e1, ?_, ?_, hgb.1, hgb.2, ?_, ?_, ?_, ?_⟩
    · rw [hb]; exact e1
    · rw [hb]; exact e3
    · rw [hb]; exact hg11
    · omega
    · omega
    · omega
  · have hm2 : ¬ (doy - c1 > 0) := by simpa using hm
    obtain ⟨c2, e2, v2⟩ := month_day_at_index lp g (by omega) (by omega)
    have e0 : g + 0 = g := by omega
    refine ⟨c1, c2, c1, e1, ?_, ?_, hgb.1, hgb.2, ?_, ?_, ?_, ?_⟩
    · rw [hb, e0]; exact e2
    · rw [hb, e0]; exact e1
    · rw [hb, e0]; exact hgb.2
    · omega
    · omega
    · omega

/-- Exact growth of the year terms of `cal2mjd` over one March-based year: 366
days when the calendar year of its February is leap, 365 otherwise. -/
theorem year_terms_step (Y : Int) :
    (((Y + 1) % 4 = 0 ∧ ((Y + 1) % 100 ≠ 0 ∨ (Y + 1) % 400 = 0)) →
      (1461 * (Y + 1)) / 4 - (3 * ((Y + 1 + 100) / 100)) / 4 =
        (1461 * Y) / 4 - (3 * ((Y + 100) / 100)) / 4 + 366) ∧
    (¬ ((Y + 1) % 4 = 0 ∧ ((Y + 1) % 100 ≠ 0 ∨ (Y + 1) % 400 = 0)) →
      (1461 * (Y + 1)) / 4 - (3 * ((Y + 1 + 100) / 100)) / 4 =
        (1461 * Y) / 4 - (3 * ((Y + 100) / 100)) / 4 + 365) := by
  have h1 : (Y + 100) / 100 % 4 = 0 ∨ (Y + 100) / 100 % 4 = 1 ∨
    (Y + 100) / 100 % 4 = 2 ∨ (Y + 100) / 100 % 4 = 3 := by omega
  have h2 : Y % 4 = 0 ∨ Y % 4 = 1 ∨ Y % 4 = 2 ∨ Y % 4 = 3 := by omega
  have h4 : (Y + 100) % 100 = 99 ∨ (Y + 100) % 100 ≤ 98 := by omega
  constructor <;> intro hl <;>
  rcases h1 with h1 | h1 | h1 | h1 <;> rcases h2 with h2 | h2 | h2 | h2 <;>
    rcases h4 with h4 | h4 <;> omega

/-- The result of `to_ydoy` on day `j` (from 0) of the year `1901 + a`, in the
four-year blocks counted from 1901-01-01. -/
theorem to_ydoy_block (a j : Int) (ha : 0 ≤ a) (ha2 : a ≤ 2147481746)
    (hj : 0 ≤ j) (hj2 : j ≤ 364 ∨ (j = 365 ∧ a % 4 = 3)) :
    (modified_julian_day.mk (15385 + 365 * a + a / 4 + j)).to_ydoy =
      ⟨⟨1901 + a⟩, ⟨j + 1⟩⟩ := by
  obtain ⟨D, hD⟩ : ∃ D : Int, D = 365 * a + a / 4 + j := ⟨_, rfl⟩
  have e0 : 15385 + 365 * a + a / 4 + j - jan11901 = D := by
    simp only [jan11901]; omega
  simp only [modified_julian_day.to_ydoy, e0]
  have e1 : Int.tdiv D 1461 = a / 4 := by
    rw [tdiv_of_nonneg D 1461 (by omega) (by norm_num)]; omega
  rw [e1]
  obtain ⟨dl, hdl⟩ : ∃ dl : Int, dl = D - 1461 * (a / 4) := ⟨_, rfl⟩
  rw [← hdl]
  have e2 : Int.tdiv dl 365 - Int.tdiv dl 1460 = a % 4 := by
    rw [tdiv_of_nonneg dl 365 (by omega) (by norm_num),
      tdiv_of_nonneg dl 1460 (by omega) (by norm_num)]
    omega
  rw [e2]
  have e3 : dl - 365 * (a % 4) + 1 = j + 1 := by omega
  have e4 : 1901 + 4 * (a / 4) + a % 4 = 1901 + a := by omega
  rw [e3, e4, to_int_eq (j + 1) (by omega) (by omega),
    to_int_eq (1901 + a) (by omega) (by omega)]

/-- The MJD of January 1 in the window of the four-year-block algorithm. -/
theorem cal2mjd_formula_jan1 (y : Int) (h1 : 1901 ≤ y) (h2 : y ≤ 2100) :
    cal2mjd_formula y 1 1 = 15385 + 365 * (y - 1901) + (y - 1901) / 4 := by
  rw [cal2mjd_formula_floor y 1 1 (y + 4799) 11 (by norm_num) (by norm_num)
    (by simp) (by simp) (by omega)]
  omega

/-- The cumulative table `month_day`, read for a month in `1..12`. -/
theorem month_day_at_cases (lp : Bool) (m c : Int) (hm1 : 1 ≤ m) (hm2 : m ≤ 12)
    (hc : month_day_at (b2i lp) (m - 1) = some c) :
    (m = 1 ∧ c = 0) ∨ (m = 2 ∧ c = 31) ∨
      (3 ≤ m ∧ c = (367 * (m - 2)) / 12 + 29 + b2i lp) := by
  rcases month_cases m hm1 hm2 with
    h | h | h | h | h | h | h | h | h | h | h | h <;> subst h <;>
    cases lp <;> simp [month_day_at, month_day, b2i] at hc <;> subst hc <;>
    simp [b2i]

/-- The table read succeeds for every month in `1..12`. -/
theorem month_day_at_some (lp : Bool) (m : Int) (hm1 : 1 ≤ m) (hm2 : m ≤ 12) :
    ∃ c, month_day_at (b2i lp) (m - 1) = some c := by
  rcases month_cases m hm1 hm2 with
    h | h | h | h | h | h | h | h | h | h | h | h <;> subst h <;>
    cases lp <;> simp [month_day_at, month_day, b2i]

/-- The forward formula is the formula of January 1 plus the day of year from
the cumulative table, less one. -/
theorem cal2mjd_formula_doy (y m d c : Int) (hy : -4799 ≤ y) (hm1 : 1 ≤ m)
    (hm2 : m ≤ 12) (hc : month_day_at (b2i (is_leap y)) (m - 1) = some c) :
    cal2mjd_formula y m d = cal2mjd_formula y 1 1 + c + d - 1 := by
  have hl := is_leap_iff y
  obtain ⟨Y, hY⟩ : ∃ Y : Int, Y = y + 4799 := ⟨_, rfl⟩
  obtain ⟨Y2, hY2⟩ : ∃ Y2 : Int, Y2 = Y + 1 := ⟨_, rfl⟩
  have f1 := cal2mjd_formula_floor y 1 1 Y 11 (by norm_num) (by norm_num)
    (by simp [hY]) (by simp) (by omega)
  have hcs := month_day_at_cases (is_leap y) m c hm1 hm2 hc
  have hb : (is_leap y = true ∧ b2i (is_leap y) = 1) ∨
      (¬ is_leap y = true ∧ b2i (is_leap y) = 0) := by
    cases is_leap y <;> simp [b2i]
  rw [f1]
  by_cases hm : m ≤ 2
  · rw [cal2mjd_formula_floor y m d Y (m + 10) hm1 hm2 (by rw [if_pos hm, hY])
      (by rw [if_pos hm]) (by omega)]
    have hmc : m = 1 ∨ m = 2 := by omega
    clear hl hb
    rcases hmc with h | h <;> subst h <;> omega
  · rw [cal2mjd_formula_floor y m d Y2 (m - 2) hm1 hm2
      (by rw [if_neg hm]; omega) (by rw [if_neg hm]) (by omega)]
    obtain ⟨s1, s2⟩ := year_terms_step Y
    rw [← hY2] at s1 s2
    have hlY : ((Y2 % 4 = 0 ∧ (Y2 % 100 ≠ 0 ∨ Y2 % 400 = 0)) ↔
        (y % 4 = 0 ∧ (y % 100 ≠ 0 ∨ y % 400 = 0))) := by omega
    rw [hlY, ← hl] at s1 s2
    rcases hb with ⟨hb1, hb2⟩ | ⟨hb1, hb2⟩
    · have s := s1 hb1
      rw [hb2] at hcs
      clear s1 s2 hl hlY
      omega
    · have s := s2 hb1
      rw [hb2] at hcs
      clear s1 s2 hl hlY
      omega

/-- Within 1901..2100, `to_ydoy` of the MJD of a valid date is the year and the
day of year from the cumulative table. -/
theorem to_ydoy_of_valid (y m d c : Int) (hv : valid_ymd y m d) (h1 : 1901 ≤ y)
    (h2 : y ≤ 2100) (hc : month_day_at (b2i (is_leap y)) (m - 1) = some c) :
    (modified_julian_day.mk (cal2mjd_formula y m d)).to_ydoy =
      ⟨⟨y⟩, ⟨c + d⟩⟩ := by
  obtain ⟨hm1, hm2, hd1, hd2, hd3, hd4, hd5⟩ := valid_ymd_bounds y m d hv
  have hl := is_leap_iff y
  have hcs := month_day_at_cases (is_leap y) m c hm1 hm2 hc
  have hb : (is_leap y = true ∧ b2i (is_leap y) = 1) ∨
      (¬ is_leap y = true ∧ b2i (is_leap y) = 0) := by
    cases is_leap y <;> simp [b2i]
  have hj : 0 ≤ c + d - 1 ∧
      (c + d - 1 ≤ 364 ∨ (c + d - 1 = 365 ∧ (y - 1901) % 4 = 3)) := by
    rw [hl] at hb
    clear hl hc hv
    rcases month_cases m hm1 hm2 with
      h | h | h | h | h | h | h | h | h | h | h | h <;> subst h <;> omega
  have e : cal2mjd_formula y m d =
      15385 + 365 * (y - 1901) + (y - 1901) / 4 + (c + d - 1) := by
    rw [cal2mjd_formula_doy y m d c (by omega) hm1 hm2 hc,
      cal2mjd_formula_jan1 y h1 h2]
    omega
  have e1 : 1901 + (y - 1901) = y := by omega
  have e2 : c + d - 1 + 1 = c + d := by omega
  rw [e, to_ydoy_block (y - 1901) (c + d - 1) (by omega) (by omega) hj.1 hj.2,
    e1, e2]

/-- Full statement of the estimate-then-correct conversion on a valid day of
year. -/
theorem ydoy_to_ymd_of_valid (y doy : Int) (h1 : 1 ≤ doy)
    (h2 : doy ≤ 365 ∨ (is_leap y = true ∧ doy ≤ 366)) :
    ∃ m d lo hi : Int,
      (ydoy_date.mk ⟨y⟩ ⟨doy⟩).to_ymd = some ⟨⟨y⟩, ⟨m⟩, ⟨d⟩⟩ ∧
      1 ≤ m ∧ m ≤ 12 ∧
      month_day_at (b2i (is_leap y)) (m - 1) = some lo ∧
      month_day_at (b2i (is_leap y)) m = some hi ∧
      lo < doy ∧ doy ≤ hi ∧ d = doy - lo ∧
      (ymd_date.mk ⟨y⟩ ⟨m⟩ ⟨d⟩).to_ydoy = some ⟨⟨y⟩, ⟨doy⟩⟩ := by
  have h2b : doy ≤ 365 + b2i (is_leap y) := by
    rcases b2i_cases (is_leap y) with ⟨hl, hb⟩ | ⟨hl, hb⟩
    · rw [hb]; rcases h2 with h | h <;> omega
    · rw [hb]; rcases h2 with h | h
      · omega
      · rw [hl] at h; exact absurd h.1 (by simp)
  obtain ⟨c1, c2, hi, e1, e2, e3, g0, g11, gm, c0, hlo, hhi⟩ :=
    month_search (is_leap y) doy h1 h2b
  have hmore : b2i (decide (doy - c1 > 0)) = 0 ∨ b2i (decide (doy - c1 > 0)) = 1 := by
    rcases b2i_cases (decide (doy - c1 > 0)) with ⟨-, h⟩ | ⟨-, h⟩ <;> omega
  have em : month_guess doy + b2i (decide (doy - c1 > 0)) + 1 - 1 =
      month_guess doy + b2i (decide (doy - c1 > 0)) := by omega
  refine ⟨month_guess doy + b2i (decide (doy - c1 > 0)) + 1, doy - c2, c2, hi,
    ?_, by omega, by omega, by rw [em]; exact e2, e3, hlo, hhi, rfl, ?_⟩
  · simp only [ydoy_date.to_ymd, year.is_leap, e1, Option.some_bind, e2,
      Option.map_some']
    rw [to_int_eq (doy - c2) (by omega) (by omega)]
  · simp only [ymd_date.to_ydoy, year.is_leap, em, e2, Option.map_some']
    rw [to_int_eq (c2 + (doy - c2)) (by omega) (by omega)]
    have e : c2 + (doy - c2) = doy := by omega
    rw [e]

/-- The cumulative table is the running sum of the month lengths. -/
theorem month_day_at_succ (y m lo : Int) (hm1 : 1 ≤ m) (hm2 : m ≤ 12)
    (hlo : month_day_at (b2i (is_leap y)) (m - 1) = some lo) :
    month_day_at (b2i (is_leap y)) m = some (lo + month_length y m) := by
  rcases month_cases m hm1 hm2 with
    h | h | h | h | h | h | h | h | h | h | h | h <;> subst h <;>
    cases hb : is_leap y <;>
    simp [month_day_at, month_day, month_length, mtab, b2i, hb] at hlo ⊢ <;>
    omega

/-- The cumulative table is monotone. -/
theorem month_day_at_mono (lp : Bool) (i j a b : Int) (h0 : 0 ≤ i) (hij : i ≤ j)
    (h12 : j ≤ 12) (ha : month_day_at (b2i lp) i = some a)
    (hb : month_day_at (b2i lp) j = some b) : a ≤ b := by
  obtain ⟨a2, ea, va⟩ := month_day_at_index lp i h0 (by omega)
  obtain ⟨b2, eb, vb⟩ := month_day_at_index lp j (by omega) h12
  rw [ea] at ha; rw [eb] at hb
  simp only [Option.some.injEq] at ha hb
  subst ha hb
  have hlp : b2i lp = 0 ∨ b2i lp = 1 := by
    rcases b2i_cases lp with ⟨-, h⟩ | ⟨-, h⟩ <;> omega
  omega

/-! ## MJD, (year, day of year) and the table-based conversions -/

/-- Day-of-year consistency within the window of the four-year blocks: for
every valid calendar date of the years 1901 through 2100, the day of year of
`to_ydoy` applied to the MJD of the date is the cumulative-table value
`month_day[is_leap(y)][m-1] + d`, which is also the day of year computed by
`ymd_date::to_ydoy`. -/
theorem to_ydoy_doy_consistent (y m d : Int) (hv : valid_ymd y m d)
    (h1 : 1901 ≤ y) (h2 : y ≤ 2100) :
    ∃ mjd c : Int, cal2mjd y m d = .ok mjd ∧
      month_day_at (b2i (is_leap y)) (m - 1) = some c ∧
      (modified_julian_day.mk mjd).to_ydoy.__doy = ⟨c + d⟩ ∧
      (ymd_date.mk ⟨y⟩ ⟨m⟩ ⟨d⟩).to_ydoy = some ⟨⟨y⟩, ⟨c + d⟩⟩ := by
  obtain ⟨c, hc⟩ := month_day_at_some (is_leap y) m hv.1 hv.2.1
  refine ⟨cal2mjd_formula y m d, c, cal2mjd_of_valid y m d hv, hc, ?_, ?_⟩
  · rw [to_ydoy_of_valid y m d c hv h1 h2 hc]
  · have hcs := month_day_at_cases (is_leap y) m c hv.1 hv.2.1 hc
    obtain ⟨hm1, hm2, hd1, hd2, -⟩ := valid_ymd_bounds y m d hv
    have hb : b2i (is_leap y) = 0 ∨ b2i (is_leap y) = 1 := by
      cases is_leap y <;> simp [b2i]
    simp only [ymd_date.to_ydoy, year.is_leap, hc, Option.map_some']
    rw [to_int_eq (c + d) (by omega) (by omega)]

/-- Day-of-year consistency at 2000-03-01. -/
theorem to_ydoy_doy_consistent_witness :
    valid_ymd 2000 3 1 ∧
      ∃ mjd c : Int, cal2mjd 2000 3 1 = .ok mjd ∧
        month_day_at (b2i (is_leap 2000)) (3 - 1) = some c ∧
        (modified_julian_day.mk mjd).to_ydoy.__doy = ⟨c + 1⟩ ∧
        (ymd_date.mk ⟨2000⟩ ⟨3⟩ ⟨1⟩).to_ydoy = some ⟨⟨2000⟩, ⟨c + 1⟩⟩ :=
  ⟨by decide, to_ydoy_doy_consistent 2000 3 1 (by decide) (by decide) (by decide)⟩

/-- C6 fails in the code on both sides of the years 1901..2100.  The date
2101-01-01 is valid, its MJD is 88434, `to_ymd` of that MJD is 2101-01-01 and
its table day of year is 1, but `to_ydoy` of that MJD is day 366 of 2100, a
year that `is_leap` says is not a leap year; the date 1900-12-31 is valid, its
MJD is 15384, `to_ymd` of that MJD is 1900-12-31 and its table day of year is
365, but `to_ydoy` of that MJD is day 0 of 1901. -/
theorem to_ydoy_doy_counterexample :
    (valid_ymd 2101 1 1 ∧ cal2mjd 2101 1 1 = .ok 88434 ∧
      (modified_julian_day.mk 88434).to_ymd = ⟨⟨2101⟩, ⟨1⟩, ⟨1⟩⟩ ∧
      (ymd_date.mk ⟨2101⟩ ⟨1⟩ ⟨1⟩).to_ydoy = some ⟨⟨2101⟩, ⟨1⟩⟩ ∧
      (modified_julian_day.mk 88434).to_ydoy = ⟨⟨2100⟩, ⟨366⟩⟩ ∧
      is_leap 2100 = false ∧
      (modified_julian_day.mk 88434).to_ydoy.__doy ≠ ⟨1⟩) ∧
    (valid_ymd 1900 12 31 ∧ cal2mjd 1900 12 31 = .ok 15384 ∧
      (modified_julian_day.mk 15384).to_ymd = ⟨⟨1900⟩, ⟨12⟩, ⟨31⟩⟩ ∧
      (ymd_date.mk ⟨1900⟩ ⟨12⟩ ⟨31⟩).to_ydoy = some ⟨⟨1900⟩, ⟨365⟩⟩ ∧
      (modified_julian_day.mk 15384).to_ydoy = ⟨⟨1901⟩, ⟨0⟩⟩ ∧
      (modified_julian_day.mk 15384).to_ydoy.__doy ≠ ⟨365⟩) := by
  exact ⟨⟨by decide, rfl, rfl, rfl, rfl, rfl, by decide⟩,
    ⟨by decide, rfl, rfl, rfl, rfl, by decide⟩⟩

/-- From the anchor on `to_ydoy` undoes `ydoy2mjd`: for every year from 1901
on and every day of year valid for it, `to_ydoy` of `ydoy2mjd(y, doy)` is
exactly `(y, doy)`. -/
theorem ydoy2mjd_to_ydoy (y doy : Int) (hy : 1901 ≤ y) (hy2 : y ≤ 2147483647)
    (hd1 : 1 ≤ doy) (hd2 : doy ≤ 365 ∨ (is_leap y = true ∧ doy ≤ 366)) :
    (ydoy2mjd ⟨y⟩ ⟨doy⟩).to_ydoy = ⟨⟨y⟩, ⟨doy⟩⟩ := by
  have hl := is_leap_iff y
  rw [hl] at hd2
  have e : ydoy2mjd ⟨y⟩ ⟨doy⟩ =
      ⟨15385 + 365 * (y - 1901) + (y - 1901) / 4 + (doy - 1)⟩ := by
    simp only [ydoy2mjd, jan11901, tmod_eq_sub]
    rw [tdiv_of_nonneg (y - 1901) 4 (by omega) (by norm_num)]
    congr 1
    omega
  have e1 : 1901 + (y - 1901) = y := by omega
  have e2 : doy - 1 + 1 = doy := by omega
  rw [e, to_ydoy_block (y - 1901) (doy - 1) (by omega) (by omega) (by omega)
    (by omega), e1, e2]

/-- The round trip through `ydoy2mjd` at the last day of the leap year 2000. -/
theorem ydoy2mjd_to_ydoy_witness :
    ((1901 : Int) ≤ 2000 ∧ (1 : Int) ≤ 366 ∧ is_leap 2000 = true) ∧
      (ydoy2mjd ⟨2000⟩ ⟨366⟩).to_ydoy = ⟨⟨2000⟩, ⟨366⟩⟩ :=
  ⟨by decide,
    ydoy2mjd_to_ydoy 2000 366 (by decide) (by decide) (by decide)
      (Or.inr ⟨by decide, by decide⟩)⟩

/-- C7 fails in the code at day 365 of 1900, a valid day of the non-leap year
1900: `ydoy2mjd` gives MJD 15384, which is the MJD of 1900-12-31 by `cal2mjd`
and `to_ymd`, but `to_ydoy` of it is day 0 of 1901 instead of day 365 of
1900. -/
theorem ydoy2mjd_to_ydoy_counterexample :
    is_leap 1900 = false ∧ ((1 : Int) ≤ 365 ∧ (365 : Int) ≤ 365) ∧
      ydoy2mjd ⟨1900⟩ ⟨365⟩ = ⟨15384⟩ ∧
      cal2mjd 1900 12 31 = .ok 15384 ∧
      (modified_julian_day.mk 15384).to_ymd = ⟨⟨1900⟩, ⟨12⟩, ⟨31⟩⟩ ∧
      (ydoy2mjd ⟨1900⟩ ⟨365⟩).to_ydoy = ⟨⟨1901⟩, ⟨0⟩⟩ ∧
      (ydoy2mjd ⟨1900⟩ ⟨365⟩).to_ydoy ≠ ⟨⟨1900⟩, ⟨365⟩⟩ := by
  refine ⟨rfl, by decide, rfl, rfl, rfl, rfl, by decide⟩

/-- C8: the estimate-then-correct conversion is right for every valid day of
year: `ydoy_date{y, doy}.to_ymd()`, with the estimate `month_guess`, returns
`(y, m, d)` with `1 ≤ m ≤ 12`, `month_day[leap][m-1] < doy ≤ month_day[leap][m]`
and `d = doy - month_day[leap][m-1]`, and `ymd_date{y, m, d}.to_ydoy()` returns
`(y, doy)` again. -/
theorem ydoy_to_ymd_estimate_correct (y doy : Int) (h1 : 1 ≤ doy)
    (h2 : doy ≤ 365 ∨ (is_leap y = true ∧ doy ≤ 366)) :
    ∃ m d lo hi : Int,
      (ydoy_date.mk ⟨y⟩ ⟨doy⟩).to_ymd = some ⟨⟨y⟩, ⟨m⟩, ⟨d⟩⟩ ∧
      1 ≤ m ∧ m ≤ 12 ∧
      month_day_at (b2i (is_leap y)) (m - 1) = some lo ∧
      month_day_at (b2i (is_leap y)) m = some hi ∧
      lo < doy ∧ doy ≤ hi ∧ d = doy - lo ∧
      (ymd_date.mk ⟨y⟩ ⟨m⟩ ⟨d⟩).to_ydoy = some ⟨⟨y⟩, ⟨doy⟩⟩ :=
  ydoy_to_ymd_of_valid y doy h1 h2

/-- C8, at day 60 of the leap year 2000 (February 29). -/
theorem ydoy_to_ymd_estimate_correct_witness :
    ((1 : Int) ≤ 60 ∧ (60 : Int) ≤ 365) ∧
      ∃ m d lo hi : Int,
        (ydoy_date.mk ⟨2000⟩ ⟨60⟩).to_ymd = some ⟨⟨2000⟩, ⟨m⟩, ⟨d⟩⟩ ∧
        1 ≤ m ∧ m ≤ 12 ∧
        month_day_at (b2i (is_leap 2000)) (m - 1) = some lo ∧
        month_day_at (b2i (is_leap 2000)) m = some hi ∧
        lo < 60 ∧ 60 ≤ hi ∧ d = 60 - lo ∧
        (ymd_date.mk ⟨2000⟩ ⟨m⟩ ⟨d⟩).to_ydoy = some ⟨⟨2000⟩, ⟨60⟩⟩ :=
  ⟨by decide,
    ydoy_to_ymd_estimate_correct 2000 60 (by decide) (Or.inl (by decide))⟩

/-- C9: for every year and every valid month and day of it,
`ymd_date{y, m, d}.to_ydoy().to_ymd()` returns exactly `(y, m, d)`. -/
theorem ymd_ydoy_round_trip (y m d : Int) (hv : valid_ymd y m d) :
    ∃ yd : ydoy_date, (ymd_date.mk ⟨y⟩ ⟨m⟩ ⟨d⟩).to_ydoy = some yd ∧
      yd.to_ymd = some ⟨⟨y⟩, ⟨m⟩, ⟨d⟩⟩ := by
  obtain ⟨hm1, hm2, hd1, hd2⟩ := hv
  obtain ⟨lo, elo, vlo⟩ := month_day_at_index (is_leap y) (m - 1) (by omega) (by omega)
  have ehi := month_day_at_succ y m lo hm1 hm2 elo
  obtain ⟨hi12, e12, v12⟩ := month_day_at_index (is_leap y) 12 (by omega) (by omega)
  have hle := month_day_at_mono (is_leap y) m 12 _ _ (by omega) hm2 (by omega) ehi e12
  have hlp : b2i (is_leap y) = 0 ∨ b2i (is_leap y) = 1 := by
    rcases b2i_cases (is_leap y) with ⟨-, h⟩ | ⟨-, h⟩ <;> omega
  have hlo0 : 0 ≤ lo := by omega
  have hdoy : lo + d ≤ 365 ∨ (is_leap y = true ∧ lo + d ≤ 366) := by
    rcases b2i_cases (is_leap y) with ⟨hl, hb⟩ | ⟨hl, hb⟩
    · right; exact ⟨hl, by omega⟩
    · left; omega
  obtain ⟨m2, d2, lo2, hi2, r1, r2, r3, r4, r5, r6, r7, r8, r9⟩ :=
    ydoy_to_ymd_of_valid y (lo + d) (by omega) hdoy
  refine ⟨⟨⟨y⟩, ⟨lo + d⟩⟩, ?_, ?_⟩
  · simp only [ymd_date.to_ydoy, year.is_leap, elo, Option.map_some']
    rw [to_int_eq (lo + d) (by omega) (by omega)]
  · have hmm : m2 = m := by
      rcases lt_trichotomy m2 m with h | h | h
      · have := month_day_at_mono (is_leap y) m2 (m - 1) _ _ (by omega) (by omega)
          (by omega) r5 elo
        omega
      · exact h
      · have := month_day_at_mono (is_leap y) m (m2 - 1) _ _ (by omega) (by omega)
          (by omega) ehi r4
        omega
    subst hmm
    rw [elo] at r4
    simp only [Option.some.injEq] at r4
    subst r4
    have hd : d2 = d := by omega
    subst hd
    exact r1

/-- C9, at 2000-02-29. -/
theorem ymd_ydoy_round_trip_witness :
    valid_ymd 2000 2 29 ∧
      ∃ yd : ydoy_date, (ymd_date.mk ⟨2000⟩ ⟨2⟩ ⟨29⟩).to_ydoy = some yd ∧
        yd.to_ymd = some ⟨⟨2000⟩, ⟨2⟩, ⟨29⟩⟩ :=
  ⟨by decide, ymd_ydoy_round_trip 2000 2 29 (by decide)⟩

/-! ## Durations -/

/-- Truncating quotient and remainder by a positive divisor recompose the
dividend, and the remainder of a non-negative dividend is a proper one. -/
theorem remove_days_parts (c mx : Int) (hmx : 0 < mx) :
    Int.tdiv c mx * mx + Int.tmod c mx = c ∧
      (0 ≤ c → 0 ≤ Int.tmod c mx ∧ Int.tmod c mx < mx) := by
  refine ⟨?_, fun hc => ⟨Int.tmod_nonneg mx hc, Int.tmod_lt_of_pos c hmx⟩⟩
  have h := Int.tdiv_add_tmod c mx
  rw [Int.mul_comm] at h
  exact h


/-- C10: for seconds, milliseconds and microseconds, and every stored count
whose day quotient fits an `int`, `remove_days()` returns the truncating
quotient `q` of the count by `max_in_day` and leaves the truncating remainder
`r`, with `q * max_in_day + r` the count, and `0 ≤ r < max_in_day` for a
non-negative count; on `max_in_day + 1` it returns 1 and leaves 1. -/
theorem remove_days_spec (c1 c2 c3 : Int)
    (h1 : -2147483648 ≤ Int.tdiv c1 seconds.max_in_day ∧
      Int.tdiv c1 seconds.max_in_day ≤ 2147483647)
    (h2 : -2147483648 ≤ Int.tdiv c2 milliseconds.max_in_day ∧
      Int.tdiv c2 milliseconds.max_in_day ≤ 2147483647)
    (h3 : -2147483648 ≤ Int.tdiv c3 microseconds.max_in_day ∧
      Int.tdiv c3 microseconds.max_in_day ≤ 2147483647) :
    ((seconds.mk c1).remove_days =
        (Int.tdiv c1 seconds.max_in_day, ⟨Int.tmod c1 seconds.max_in_day⟩) ∧
      (seconds.mk c1).remove_days.1 * seconds.max_in_day +
        (seconds.mk c1).remove_days.2.m_sec = c1 ∧
      (0 ≤ c1 → 0 ≤ (seconds.mk c1).remove_days.2.m_sec ∧
        (seconds.mk c1).remove_days.2.m_sec < seconds.max_in_day)) ∧
    ((milliseconds.mk c2).remove_days =
        (Int.tdiv c2 milliseconds.max_in_day,
          ⟨Int.tmod c2 milliseconds.max_in_day⟩) ∧
      (milliseconds.mk c2).remove_days.1 * milliseconds.max_in_day +
        (milliseconds.mk c2).remove_days.2.m_msec = c2 ∧
      (0 ≤ c2 → 0 ≤ (milliseconds.mk c2).remove_days.2.m_msec ∧
        (milliseconds.mk c2).remove_days.2.m_msec < milliseconds.max_in_day)) ∧
    ((microseconds.mk c3).remove_days =
        (Int.tdiv c3 microseconds.max_in_day,
          ⟨Int.tmod c3 microseconds.max_in_day⟩) ∧
      (microseconds.mk c3).remove_days.1 * microseconds.max_in_day +
        (microseconds.mk c3).remove_days.2.m_msec = c3 ∧
      (0 ≤ c3 → 0 ≤ (microseconds.mk c3).remove_days.2.m_msec ∧
        (microseconds.mk c3).remove_days.2.m_msec < microseconds.max_in_day)) ∧
    (seconds.mk (seconds.max_in_day + 1)).remove_days = (1, ⟨1⟩) ∧
    (milliseconds.mk (milliseconds.max_in_day + 1)).remove_days = (1, ⟨1⟩) ∧
    (microseconds.mk (microseconds.max_in_day + 1)).remove_days = (1, ⟨1⟩) := by
  have e1 : (seconds.mk c1).remove_days =
      (Int.tdiv c1 seconds.max_in_day, ⟨Int.tmod c1 seconds.max_in_day⟩) := by
    simp only [seconds.remove_days]
    rw [to_int_eq _ h1.1 (by omega)]
  have e2 : (milliseconds.mk c2).remove_days =
      (Int.tdiv c2 milliseconds.max_in_day,
        ⟨Int.tmod c2 milliseconds.max_in_day⟩) := by
    simp only [milliseconds.remove_days]
    rw [to_int_eq _ h2.1 (by omega)]
  have e3 : (microseconds.mk c3).remove_days =
      (Int.tdiv c3 microseconds.max_in_day,
        ⟨Int.tmod c3 microseconds.max_in_day⟩) := by
    simp only [microseconds.remove_days]
    rw [to_int_eq _ h3.1 (by omega)]
  refine ⟨⟨e1, ?_, ?_⟩, ⟨e2, ?_, ?_⟩, ⟨e3, ?_, ?_⟩, rfl, rfl, rfl⟩
  · rw [e1]
    exact remove_days_parts c1 seconds.max_in_day (by decide) |>.1
  · rw [e1]
    exact remove_days_parts c1 seconds.max_in_day (by decide) |>.2
  · rw [e2]
    exact remove_days_parts c2 milliseconds.max_in_day (by decide) |>.1
  · rw [e2]
    exact remove_days_parts c2 milliseconds.max_in_day (by decide) |>.2
  · rw [e3]
    exact remove_days_parts c3 microseconds.max_in_day (by decide) |>.1
  · rw [e3]
    exact remove_days_parts c3 microseconds.max_in_day (by decide) |>.2

/-- C10, at one unit past one day for each duration type. -/
theorem remove_days_spec_witness :
    ((-2147483648 : Int) ≤ Int.tdiv 86401 seconds.max_in_day ∧
      Int.tdiv 86401 seconds.max_in_day ≤ 2147483647) ∧
    (seconds.mk 86401).remove_days = (1, ⟨1⟩) ∧
    (milliseconds.mk 86400001).remove_days = (1, ⟨1⟩) ∧
    (microseconds.mk 86400000001).remove_days = (1, ⟨1⟩) :=
  ⟨by decide,
    (remove_days_spec 86401 86400001 86400000001 (by decide) (by decide)
      (by decide)).2.2.2⟩

/-! ## Truncating quotient and remainder -/

/-- Quotient and remainder of the C++ operators `/` and `%` by a positive
divisor. -/
theorem tdiv_tmod_spec (a b : Int) (hb : 0 < b) :
    a = b * Int.tdiv a b + Int.tmod a b ∧
      (0 ≤ a → 0 ≤ Int.tmod a b ∧ Int.tmod a b < b ∧ Int.tdiv a b = a / b) ∧
      (a ≤ 0 → -b < Int.tmod a b ∧ Int.tmod a b ≤ 0) := by
  have h0 := Int.tdiv_add_tmod a b
  refine ⟨h0.symm, ?_, ?_⟩
  · intro ha
    exact ⟨Int.tmod_nonneg b ha, Int.tmod_lt_of_pos a hb,
      Int.tdiv_eq_ediv ha (le_of_lt hb)⟩
  · intro ha
    have h1 : Int.tmod (-a) b = -Int.tmod a b := by
      rw [Int.tmod_def, Int.tmod_def, Int.neg_tdiv]; ring
    have h2 := Int.tmod_nonneg b (show 0 ≤ -a by omega)
    have h3 := Int.tmod_lt_of_pos (-a) hb
    omega


/-! ## Durations: day overflow, decomposition, casts and division -/

/-- Casting a quotient that fits an `int` does not change it. -/
theorem to_int_fits (x : Int) (h : -2147483648 ≤ x ∧ x ≤ 2147483647) :
    to_int x = x :=
  to_int_eq x h.1 (by omega)

/-- Decomposition of a count `c` into hours, minutes, seconds and the
remainder by successive truncating divisions by `3600 * R`, `60 * R` and `R`
(with `a = 3600 * R`, `b = 60 * R`). -/
theorem hmsf_parts (c R a b : Int) (hR : 0 < R) (ha : a = 3600 * R)
    (hb : b = 60 * R) :
    -60 < Int.tdiv (Int.tmod c a) b ∧ Int.tdiv (Int.tmod c a) b < 60 ∧
    (0 ≤ c → Int.tdiv c a = c / a ∧
      0 ≤ Int.tdiv (Int.tmod c a) b ∧
      0 ≤ Int.tdiv (Int.tmod (Int.tmod c a) b) R ∧
      Int.tdiv (Int.tmod (Int.tmod c a) b) R < 60 ∧
      0 ≤ c - ((Int.tdiv c a * 60 + Int.tdiv (Int.tmod c a) b) * 60 +
        Int.tdiv (Int.tmod (Int.tmod c a) b) R) * R ∧
      c - ((Int.tdiv c a * 60 + Int.tdiv (Int.tmod c a) b) * 60 +
        Int.tdiv (Int.tmod (Int.tmod c a) b) R) * R < R) := by
  obtain ⟨e1, p1, n1⟩ := tdiv_tmod_spec c a (by omega)
  obtain ⟨e2, p2, n2⟩ := tdiv_tmod_spec (Int.tmod c a) b (by omega)
  obtain ⟨e3, p3, n3⟩ := tdiv_tmod_spec (Int.tmod (Int.tmod c a) b) R hR
  generalize Int.tdiv c a = q1 at *
  generalize Int.tmod c a = r1 at *
  generalize Int.tdiv r1 b = q2 at *
  generalize Int.tmod r1 b = r2 at *
  generalize Int.tdiv r2 R = q3 at *
  generalize Int.tmod r2 R = r3 at *
  subst ha hb
  have hq2 : -60 < q2 ∧ q2 < 60 := by
    rcases le_total 0 c with hc | hc
    · have := p1 hc
      have := p2 (by omega)
      constructor <;> nlinarith
    · have := n1 hc
      have := n2 (by omega)
      constructor <;> nlinarith
  refine ⟨hq2.1, hq2.2, ?_⟩
  intro hc
  obtain ⟨r1a, r1b, r1c⟩ := p1 hc
  obtain ⟨r2a, r2b, r2c⟩ := p2 r1a
  obtain ⟨r3a, r3b, r3c⟩ := p3 r2a
  have hq2n : 0 ≤ q2 := by rw [r2c]; positivity
  have hq3n : 0 ≤ q3 := by rw [r3c]; positivity
  refine ⟨r1c, hq2n, hq3n, ?_, ?_, ?_⟩
  · nlinarith
  · nlinarith
  · nlinarith

/-- C11: for each duration type `more_than_day()` is true exactly when the
stored count is strictly greater than `max_in_day`; at `max_in_day` itself it
is false, although `to_days()` is 1 and `remove_days()` returns 1 and leaves
0. -/
theorem more_than_day_strict (c : Int) :
    ((seconds.mk c).more_than_day = true ↔ c > seconds.max_in_day) ∧
    ((milliseconds.mk c).more_than_day = true ↔ c > milliseconds.max_in_day) ∧
    ((microseconds.mk c).more_than_day = true ↔
      c > microseconds.max_in_day) ∧
    ((seconds.mk seconds.max_in_day).more_than_day = false ∧
      (seconds.mk seconds.max_in_day).to_days = 1 ∧
      (seconds.mk seconds.max_in_day).remove_days = (1, ⟨0⟩)) ∧
    ((milliseconds.mk milliseconds.max_in_day).more_than_day = false ∧
      (milliseconds.mk milliseconds.max_in_day).to_days = 1 ∧
      (milliseconds.mk milliseconds.max_in_day).remove_days = (1, ⟨0⟩)) ∧
    ((microseconds.mk microseconds.max_in_day).more_than_day = false ∧
      (microseconds.mk microseconds.max_in_day).to_days = 1 ∧
      (microseconds.mk microseconds.max_in_day).remove_days = (1, ⟨0⟩)) := by
  refine ⟨?_, ?_, ?_, ⟨rfl, rfl, rfl⟩, ⟨rfl, rfl, rfl⟩, ⟨rfl, rfl, rfl⟩⟩
  · simp [seconds.more_than_day]
  · simp [milliseconds.more_than_day]
  · simp [microseconds.more_than_day]

/-- C12: for each duration type with resolution `R` and every stored count
`c` whose hour quotient fits an `int`, `to_hmsf()` returns `(h, m, s, f)` with
`h*3600*R + m*60*R + s*R + f = c`; for `c ≥ 0` moreover `h = c / (3600*R)`,
`0 ≤ m < 60`, `0 ≤ s < 60` and `0 ≤ f < R`; `f` is always 0 for seconds; and
`microseconds(3661000000).to_hmsf()` is `(1, 1, 1, 0)`. -/
theorem to_hmsf_spec (c1 c2 c3 : Int)
    (h1 : -2147483648 ≤ Int.tdiv c1 3600 ∧ Int.tdiv c1 3600 ≤ 2147483647)
    (h2 : -2147483648 ≤ Int.tdiv c2 3600000 ∧
      Int.tdiv c2 3600000 ≤ 2147483647)
    (h3 : -2147483648 ≤ Int.tdiv c3 3600000000 ∧
      Int.tdiv c3 3600000000 ≤ 2147483647) :
    (∃ h m s f : Int, (seconds.mk c1).to_hmsf = (⟨h⟩, ⟨m⟩, ⟨s⟩, f) ∧
      h * 3600 * 1 + m * 60 * 1 + s * 1 + f = c1 ∧ f = 0 ∧
      (0 ≤ c1 → h = c1 / (3600 * 1) ∧ 0 ≤ m ∧ m < 60 ∧ 0 ≤ s ∧ s < 60 ∧
        0 ≤ f ∧ f < 1)) ∧
    (∃ h m s f : Int, (milliseconds.mk c2).to_hmsf = (⟨h⟩, ⟨m⟩, ⟨s⟩, f) ∧
      h * 3600 * 1000 + m * 60 * 1000 + s * 1000 + f = c2 ∧
      (0 ≤ c2 → h = c2 / (3600 * 1000) ∧ 0 ≤ m ∧ m < 60 ∧ 0 ≤ s ∧ s < 60 ∧
        0 ≤ f ∧ f < 1000)) ∧
    (∃ h m s f : Int, (microseconds.mk c3).to_hmsf = (⟨h⟩, ⟨m⟩, ⟨s⟩, f) ∧
      h * 3600 * 1000000 + m * 60 * 1000000 + s * 1000000 + f = c3 ∧
      (0 ≤ c3 → h = c3 / (3600 * 1000000) ∧ 0 ≤ m ∧ m < 60 ∧ 0 ≤ s ∧
        s < 60 ∧ 0 ≤ f ∧ f < 1000000)) ∧
    (microseconds.mk 3661000000).to_hmsf = (⟨1⟩, ⟨1⟩, ⟨1⟩, 0) := by
  refine ⟨?_, ?_, ?_, rfl⟩
  · obtain ⟨e1, p1, n1⟩ := tdiv_tmod_spec c1 3600 (by norm_num)
    obtain ⟨e2, p2, n2⟩ := tdiv_tmod_spec (Int.tmod c1 3600) 60 (by norm_num)
    have hm : -60 < Int.tdiv (Int.tmod c1 3600) 60 ∧
        Int.tdiv (Int.tmod c1 3600) 60 < 60 := by
      rcases le_total 0 c1 with hc | hc
      · have := p1 hc
        have := p2 (by omega)
        omega
      · have := n1 hc
        have := n2 (by omega)
        omega
    refine ⟨Int.tdiv c1 3600, Int.tdiv (Int.tmod c1 3600) 60,
      Int.tmod (Int.tmod c1 3600) 60, 0, ?_, ?_, rfl, ?_⟩
    · simp only [seconds.to_hmsf]
      rw [to_int_fits _ h1, to_int_eq _ (by omega) (by omega)]
    · omega
    · intro hc
      obtain ⟨r1a, r1b, r1c⟩ := p1 hc
      obtain ⟨r2a, r2b, r2c⟩ := p2 r1a
      refine ⟨r1c, ?_, hm.2, r2a, r2b, le_refl 0, by norm_num⟩
      omega
  · obtain ⟨m1, m2, hp⟩ := hmsf_parts c2 1000 3600000 60000 (by norm_num)
      (by norm_num) (by norm_num)
    refine ⟨Int.tdiv c2 3600000, Int.tdiv (Int.tmod c2 3600000) 60000,
      Int.tdiv (Int.tmod (Int.tmod c2 3600000) 60000) 1000,
      c2 - ((Int.tdiv c2 3600000 * 60 +
        Int.tdiv (Int.tmod c2 3600000) 60000) * 60 +
        Int.tdiv (Int.tmod (Int.tmod c2 3600000) 60000) 1000) * 1000,
      ?_, ?_, ?_⟩
    · simp only [milliseconds.to_hmsf]
      rw [to_int_fits _ h2, to_int_eq _ (by omega) (by omega)]
    · ring
    · intro hc
      obtain ⟨q1, q2, q3, q4, q5, q6⟩ := hp hc
      exact ⟨q1, q2, m2, q3, q4, q5, q6⟩
  · obtain ⟨m1, m2, hp⟩ := hmsf_parts c3 1000000 3600000000 60000000
      (by norm_num) (by norm_num) (by norm_num)
    refine ⟨Int.tdiv c3 3600000000,
      Int.tdiv (Int.tmod c3 3600000000) 60000000,
      Int.tdiv (Int.tmod (Int.tmod c3 3600000000) 60000000) 1000000,
      c3 - ((Int.tdiv c3 3600000000 * 60 +
        Int.tdiv (Int.tmod c3 3600000000) 60000000) * 60 +
        Int.tdiv (Int.tmod (Int.tmod c3 3600000000) 60000000) 1000000) *
          1000000,
      ?_, ?_, ?_⟩
    · simp only [microseconds.to_hmsf]
      rw [to_int_fits _ h3, to_int_eq _ (by omega) (by omega)]
    · ring
    · intro hc
      obtain ⟨q1, q2, q3, q4, q5, q6⟩ := hp hc
      exact ⟨q1, q2, m2, q3, q4, q5, q6⟩

/-- C12, at one hour, one minute and one second in each duration type. -/
theorem to_hmsf_spec_witness :
    ((-2147483648 : Int) ≤ Int.tdiv 3661 3600 ∧
      Int.tdiv 3661 3600 ≤ 2147483647) ∧
    (microseconds.mk 3661000000).to_hmsf = (⟨1⟩, ⟨1⟩, ⟨1⟩, 0) :=
  ⟨by decide,
    (to_hmsf_spec 3661 3661000 3661000000 (by decide) (by decide)
      (by decide)).2.2.2⟩

/-- The stored count of `mjd_sec_diff`, its remainder by `max_in_day` and its
day quotient, for a duration type with `max_in_day = mx > 0`. -/
theorem mjd_diff_parts (a b mx : Int) (hmx : 0 < mx) :
    Int.tmod ((a - b) * mx) mx = 0 ∧ Int.tdiv ((a - b) * mx) mx = a - b ∧
      (b - a) * mx = -((a - b) * mx) := by
  refine ⟨Int.mul_tmod_left _ _, ?_, by ring⟩
  exact Int.mul_tdiv_cancel _ (by omega)

/-- C13 (amended): for every pair of Modified Julian Days and every duration
type `S`, `mjd_sec_diff<S>(d1, d2)` has stored count `(d1 - d2) * max_in_day`;
`remove_days()` on it leaves a stored count of 0, `mjd_sec_diff<S>(d2, d1)` has
the negated count, and, when `d1 - d2` fits an `int`, its `to_days()` equals
`d1 - d2`. -/
theorem mjd_sec_diff_spec (d1 d2 : Int) :
    ((mjd_sec_diff seconds ⟨d1⟩ ⟨d2⟩).m_sec = (d1 - d2) * seconds.max_in_day ∧
      (mjd_sec_diff seconds ⟨d1⟩ ⟨d2⟩).remove_days.2 = ⟨0⟩ ∧
      (mjd_sec_diff seconds ⟨d2⟩ ⟨d1⟩).m_sec =
        -(mjd_sec_diff seconds ⟨d1⟩ ⟨d2⟩).m_sec ∧
      (-2147483648 ≤ d1 - d2 ∧ d1 - d2 ≤ 2147483647 →
        (mjd_sec_diff seconds ⟨d1⟩ ⟨d2⟩).to_days = d1 - d2)) ∧
    ((mjd_sec_diff milliseconds ⟨d1⟩ ⟨d2⟩).m_msec =
        (d1 - d2) * milliseconds.max_in_day ∧
      (mjd_sec_diff milliseconds ⟨d1⟩ ⟨d2⟩).remove_days.2 = ⟨0⟩ ∧
      (mjd_sec_diff milliseconds ⟨d2⟩ ⟨d1⟩).m_msec =
        -(mjd_sec_diff milliseconds ⟨d1⟩ ⟨d2⟩).m_msec ∧
      (-2147483648 ≤ d1 - d2 ∧ d1 - d2 ≤ 2147483647 →
        (mjd_sec_diff milliseconds ⟨d1⟩ ⟨d2⟩).to_days = d1 - d2)) ∧
    ((mjd_sec_diff microseconds ⟨d1⟩ ⟨d2⟩).m_msec =
        (d1 - d2) * microseconds.max_in_day ∧
      (mjd_sec_diff microseconds ⟨d1⟩ ⟨d2⟩).remove_days.2 = ⟨0⟩ ∧
      (mjd_sec_diff microseconds ⟨d2⟩ ⟨d1⟩).m_msec =
        -(mjd_sec_diff microseconds ⟨d1⟩ ⟨d2⟩).m_msec ∧
      (-2147483648 ≤ d1 - d2 ∧ d1 - d2 ≤ 2147483647 →
        (mjd_sec_diff microseconds ⟨d1⟩ ⟨d2⟩).to_days = d1 - d2)) := by
  obtain ⟨s1, s2, s3⟩ := mjd_diff_parts d1 d2 seconds.max_in_day (by decide)
  obtain ⟨m1, m2, m3⟩ :=
    mjd_diff_parts d1 d2 milliseconds.max_in_day (by decide)
  obtain ⟨u1, u2, u3⟩ :=
    mjd_diff_parts d1 d2 microseconds.max_in_day (by decide)
  refine ⟨⟨rfl, ?_, s3, ?_⟩, ⟨rfl, ?_, m3, ?_⟩, ⟨rfl, ?_, u3, ?_⟩⟩
  · show (⟨Int.tmod ((d1 - d2) * seconds.max_in_day) seconds.max_in_day⟩ :
      seconds) = ⟨0⟩
    rw [s1]
  · intro hf
    show to_int (Int.tdiv ((d1 - d2) * seconds.max_in_day)
      seconds.max_in_day) = d1 - d2
    rw [s2, to_int_fits _ hf]
  · show (⟨Int.tmod ((d1 - d2) * milliseconds.max_in_day)
      milliseconds.max_in_day⟩ : milliseconds) = ⟨0⟩
    rw [m1]
  · intro hf
    show to_int (Int.tdiv ((d1 - d2) * milliseconds.max_in_day)
      milliseconds.max_in_day) = d1 - d2
    rw [m2, to_int_fits _ hf]
  · show (⟨Int.tmod ((d1 - d2) * microseconds.max_in_day)
      microseconds.max_in_day⟩ : microseconds) = ⟨0⟩
    rw [u1]
  · intro hf
    show to_int (Int.tdiv ((d1 - d2) * microseconds.max_in_day)
      microseconds.max_in_day) = d1 - d2
    rw [u2, to_int_fits _ hf]

/-- C13, at the two days 51545 and 51544. -/
theorem mjd_sec_diff_spec_witness :
    ((-2147483648 : Int) ≤ 51545 - 51544 ∧ (51545 : Int) - 51544 ≤ 2147483647) ∧
      (mjd_sec_diff seconds ⟨51545⟩ ⟨51544⟩).to_days = 51545 - 51544 :=
  ⟨by decide, (mjd_sec_diff_spec 51545 51544).1.2.2.2 (by decide)⟩

/-- C13 as stated fails when the day difference does not fit an `int`: for
the days 2147483648 and 0 the count in seconds, 185542587187200, is far from
overflowing a `long`, but `to_days()` is -2147483648. -/
theorem mjd_sec_diff_counterexample :
    (mjd_sec_diff seconds ⟨2147483648⟩ ⟨0⟩).m_sec = 185542587187200 ∧
      (185542587187200 : Int) < 9223372036854775807 ∧
      (mjd_sec_diff seconds ⟨2147483648⟩ ⟨0⟩).to_days = -2147483648 ∧
      (mjd_sec_diff seconds ⟨2147483648⟩ ⟨0⟩).to_days ≠ 2147483648 - 0 := by
  exact ⟨rfl, by decide, rfl, by decide⟩

/-- C14: the narrowing casts truncate toward zero: the count `q` of the cast
of a count `c` satisfies `c = k * q + r` with `|r| < k` and `r` zero or of the
sign of `c`, for milliseconds to seconds and microseconds to milliseconds
(`k = 1000`) and for microseconds to seconds (`k = 1000000`);
`milliseconds{-1500}` casts to `seconds{-1}`. -/
theorem narrowing_casts_truncate (c : Int) :
    (∃ r : Int, c = 1000 * (milliseconds.mk c).to_seconds.m_sec + r ∧
      -1000 < r ∧ r < 1000 ∧ (r = 0 ∨ (0 < r ∧ 0 < c) ∨ (r < 0 ∧ c < 0))) ∧
    (∃ r : Int, c = 1000 * (microseconds.mk c).to_milliseconds.m_msec + r ∧
      -1000 < r ∧ r < 1000 ∧ (r = 0 ∨ (0 < r ∧ 0 < c) ∨ (r < 0 ∧ c < 0))) ∧
    (∃ r : Int, c = 1000000 * (microseconds.mk c).to_seconds.m_sec + r ∧
      -1000000 < r ∧ r < 1000000 ∧
      (r = 0 ∨ (0 < r ∧ 0 < c) ∨ (r < 0 ∧ c < 0))) ∧
    (milliseconds.mk (-1500)).to_seconds = ⟨-1⟩ := by
  have key : ∀ k : Int, 0 < k → ∃ r : Int, c = k * Int.tdiv c k + r ∧
      -k < r ∧ r < k ∧ (r = 0 ∨ (0 < r ∧ 0 < c) ∨ (r < 0 ∧ c < 0)) := by
    intro k hk
    obtain ⟨e, p, n⟩ := tdiv_tmod_spec c k hk
    refine ⟨Int.tmod c k, e, ?_, ?_, ?_⟩
    · rcases le_total 0 c with hc | hc
      · have := p hc; omega
      · have := n hc; omega
    · rcases le_total 0 c with hc | hc
      · have := p hc; omega
      · have := n hc; omega
    · rcases le_total 0 c with hc | hc
      · have := p hc
        have h0 : Int.tmod 0 k = 0 := Int.zero_tmod k
        rcases eq_or_lt_of_le hc with h | h
        · subst h; left; exact h0
        · omega
      · have := n hc; omega
  exact ⟨key 1000 (by norm_num), key 1000 (by norm_num),
    key 1000000 (by norm_num), rfl⟩

/-- The quotient of two `long` counts is defined for a non-zero divisor that
does not overflow. -/
theorem long_div_some (a b : Int) (hb : b ≠ 0)
    (ho : ¬ (a = long_min ∧ b = -1)) : long_div a b = some (Int.tdiv a b) := by
  unfold long_div
  rw [if_neg]
  rintro (h | h)
  · exact hb h
  · exact ho h

/-- C20 (amended): for every pair `a`, `b` of same-type durations with a
non-zero count in `b` (and not the overflowing quotient of the smallest `long`
by -1), `a / b` yields the duration whose count is the truncating quotient of
the counts. -/
theorem duration_div_spec (a b : Int) (hb : b ≠ 0)
    (ho : ¬ (a = long_min ∧ b = -1)) :
    (seconds.mk a).div ⟨b⟩ = some ⟨Int.tdiv a b⟩ ∧
      (milliseconds.mk a).div ⟨b⟩ = some ⟨Int.tdiv a b⟩ ∧
      (microseconds.mk a).div ⟨b⟩ = some ⟨Int.tdiv a b⟩ := by
  have h := long_div_some a b hb ho
  refine ⟨?_, ?_, ?_⟩
  · simp only [seconds.div, h, Option.map_some']
  · simp only [milliseconds.div, h, Option.map_some']
  · simp only [microseconds.div, h, Option.map_some']

/-- C20, at -7 divided by 2. -/
theorem duration_div_spec_witness :
    ((2 : Int) ≠ 0) ∧
      (seconds.mk (-7)).div ⟨2⟩ = some ⟨Int.tdiv (-7) 2⟩ ∧
      (milliseconds.mk (-7)).div ⟨2⟩ = some ⟨Int.tdiv (-7) 2⟩ ∧
      (microseconds.mk (-7)).div ⟨2⟩ = some ⟨Int.tdiv (-7) 2⟩ :=
  ⟨by decide, duration_div_spec (-7) 2 (by decide) (by decide)⟩

/-- C20 as stated fails for a zero divisor: the quotient of the counts 1 and
0 is undefined in each duration type. -/
theorem duration_div_counterexample :
    (seconds.mk 1).div ⟨0⟩ = none ∧ (milliseconds.mk 1).div ⟨0⟩ = none ∧
      (microseconds.mk 1).div ⟨0⟩ = none := by
  exact ⟨rfl, rfl, rfl⟩

/-- C15: `is_leap(y)` is true exactly when `y` is divisible by 4 and is not
divisible by 100 or is divisible by 400, negative years included; so
`is_leap(y + 400) = is_leap(y)`, and it is false for 1900, 1700, 2023 and true
for 2000, 1600, 2024. -/
theorem is_leap_gregorian (y : Int) :
    (is_leap y = true ↔ (4 ∣ y ∧ (¬ 100 ∣ y ∨ 400 ∣ y))) ∧
      is_leap (y + 400) = is_leap y ∧
      is_leap 1900 = false ∧ is_leap 1700 = false ∧ is_leap 2023 = false ∧
      is_leap 2000 = true ∧ is_leap 1600 = true ∧ is_leap 2024 = true := by
  refine ⟨?_, ?_, rfl, rfl, rfl, rfl, rfl, rfl⟩
  · rw [is_leap_iff]
    constructor
    · rintro ⟨h4, h⟩
      exact ⟨Int.dvd_of_emod_eq_zero h4,
        h.imp (fun h1 h2 => h1 (Int.emod_eq_zero_of_dvd h2))
          Int.dvd_of_emod_eq_zero⟩
    · rintro ⟨h4, h⟩
      exact ⟨Int.emod_eq_zero_of_dvd h4,
        h.imp (fun h1 h2 => h1 (Int.dvd_of_emod_eq_zero h2))
          Int.emod_eq_zero_of_dvd⟩
  · rw [Bool.eq_iff_iff, is_leap_iff, is_leap_iff]
    omega

/-- The month-length table `mtab` at a month in `1..12` is the length used by
`month_length`. -/
theorem mtab_at_month (m : Int) (h1 : 1 ≤ m) (h2 : m ≤ 12) :
    mtab_at (m - 1) = some (mtab.getD (m - 1).toNat 0) := by
  rcases month_cases m h1 h2 with
    h | h | h | h | h | h | h | h | h | h | h | h <;> subst h <;> rfl

/-- No month is longer than 31 days. -/
theorem month_length_le (y m : Int) : month_length y m ≤ 31 := by
  have hlb : b2i (decide (m = 2) && is_leap y) = 0 ∨
      b2i (decide (m = 2) && is_leap y) = 1 := by
    rcases b2i_cases (decide (m = 2) && is_leap y) with ⟨-, h⟩ | ⟨-, h⟩ <;>
      omega
  have hm2 : m = 2 ∨ b2i (decide (m = 2) && is_leap y) = 0 := by
    by_cases h : m = 2
    · exact Or.inl h
    · right; simp [h, b2i]
  have ht : mtab.getD (m - 1).toNat 0 ≤ 31 ∧
      (m = 2 → mtab.getD (m - 1).toNat 0 ≤ 28) := by
    by_cases hm : 1 ≤ m ∧ m ≤ 12
    · rcases month_cases m hm.1 hm.2 with
        h | h | h | h | h | h | h | h | h | h | h | h <;> subst h <;> decide
    · by_cases h0 : m ≤ 0
      · have h3 : (m - 1).toNat = 0 := by omega
        rw [h3]
        exact ⟨by decide, fun h => by omega⟩
      · have h3 : 12 ≤ (m - 1).toNat := by omega
        have hz : mtab.getD (m - 1).toNat 0 = 0 :=
          List.getD_eq_default _ _ (by simpa [mtab] using h3)
        exact ⟨by omega, fun h => by omega⟩
  unfold month_length
  omega

/-- C16: `day_of_month{d}.is_valid(year{y}, month{m})` is true exactly when
`1 ≤ m ≤ 12` and `1 ≤ d ≤ L`, with `L` the table length of month `m` plus one
for the February of a leap year; it returns without reading the table for an
invalid month (a read that would be out of bounds); and `month{m}.is_valid()`
is true exactly when `1 ≤ m ≤ 12`. -/
theorem day_of_month_is_valid_iff (y m d : Int) :
    (day_of_month.mk d).is_valid ⟨y⟩ ⟨m⟩ =
        some (decide (1 ≤ m ∧ m ≤ 12 ∧ 1 ≤ d ∧ d ≤ month_length y m)) ∧
      ((day_of_month.mk d).is_valid ⟨y⟩ ⟨m⟩ = some true ↔
        (1 ≤ m ∧ m ≤ 12 ∧ 1 ≤ d ∧ d ≤ month_length y m)) ∧
      ((m < 1 ∨ 12 < m) → mtab_at (m - 1) = none) ∧
      ((month.mk m).is_valid = true ↔ (1 ≤ m ∧ m ≤ 12)) := by
  have hmv : (month.mk m).is_valid = true ↔ (1 ≤ m ∧ m ≤ 12) := by
    simp only [month.is_valid, Bool.and_eq_true, decide_eq_true_eq]
    omega
  have hlb : b2i (decide (m = 2) && is_leap y) = 0 ∨
      b2i (decide (m = 2) && is_leap y) = 1 := by
    rcases b2i_cases (decide (m = 2) && is_leap y) with ⟨-, h⟩ | ⟨-, h⟩ <;>
      omega
  have hmain : (day_of_month.mk d).is_valid ⟨y⟩ ⟨m⟩ =
      some (decide (1 ≤ m ∧ m ≤ 12 ∧ 1 ≤ d ∧ d ≤ month_length y m)) := by
    unfold day_of_month.is_valid
    by_cases hd : d ≤ 0 ∨ d ≥ 32
    · rw [if_pos hd]
      have hml := month_length_le y m
      have : ¬ (1 ≤ m ∧ m ≤ 12 ∧ 1 ≤ d ∧ d ≤ month_length y m) := by omega
      simp [this]
    · rw [if_neg hd]
      by_cases hm : (month.mk m).is_valid = true
      · have hm2 := hmv.mp hm
        simp only [hm, Bool.not_true, Bool.false_eq_true, if_false]
        rw [mtab_at_month m hm2.1 hm2.2]
        simp only [Option.map_some', month_length]
        congr 1
        have e : (1 ≤ m ∧ m ≤ 12 ∧ 1 ≤ d ∧
            d ≤ mtab.getD (m - 1).toNat 0 +
              b2i (decide (m = 2) && is_leap y)) ↔
            d ≤ mtab.getD (m - 1).toNat 0 +
              b2i (decide (m = 2) && is_leap y) := by
          constructor
          · exact fun h => h.2.2.2
          · exact fun h => ⟨hm2.1, hm2.2, by omega, h⟩
        simp only [e]
      · have hm2 : ¬ (1 ≤ m ∧ m ≤ 12) := fun h => hm (hmv.mpr h)
        have hmf : (month.mk m).is_valid = false := by
          simpa using hm
        have : ¬ (1 ≤ m ∧ m ≤ 12 ∧ 1 ≤ d ∧ d ≤ month_length y m) :=
          fun h => hm2 ⟨h.1, h.2.1⟩
        simp [hmf, this]
  refine ⟨hmain, ?_, ?_, hmv⟩
  · rw [hmain]
    simp
  · intro hm
    unfold mtab_at
    rcases hm with h | h
    · rw [if_neg (by omega)]
    · rw [if_pos (by omega)]
      exact List.get?_eq_none.mpr (by simp [mtab]; omega)

/-- A read of the cumulative table outside the indices `0..12` is out of
bounds. -/
theorem month_day_at_none (lp : Bool) (i : Int) (h : i < 0 ∨ 12 < i) :
    month_day_at (b2i lp) i = none := by
  unfold month_day_at
  rcases h with h | h
  · rw [if_neg (by omega)]
  · have hi : 13 ≤ i.toNat := by omega
    have hrow : ∀ row ∈ month_day, row.get? i.toNat = none := by
      intro row hrow
      apply List.get?_eq_none.mpr
      simp [month_day] at hrow
      rcases hrow with h1 | h1 <;> subst h1 <;> simpa using hi
    split_ifs
    · cases lp <;> simp [b2i, month_day] <;> omega
    · rfl

/-- The cumulative table is read in bounds exactly at the indices `0..12`. -/
theorem month_day_at_isSome (lp : Bool) (i : Int) :
    (month_day_at (b2i lp) i).isSome = true ↔ (0 ≤ i ∧ i ≤ 12) := by
  constructor
  · intro h
    by_contra hc
    rw [month_day_at_none lp i (by omega)] at h
    simp at h
  · intro h
    obtain ⟨c, hc, -⟩ := month_day_at_index lp i h.1 h.2
    rw [hc]; rfl

/-- C19 (amended): the table-based conversions produce a result, every
look-up in `month_day` being within bounds, exactly on a bounded range of
unchecked input: `ymd_date::to_ydoy()` for every year and day of month and
every month in `1..13`, `ydoy_date::to_ymd()` for every year and every day of
year in `-31..374`; for any other month or day of year a look-up is outside
the table. -/
theorem table_conversions_in_bounds (y m d doy : Int) :
    ((ymd_date.mk ⟨y⟩ ⟨m⟩ ⟨d⟩).to_ydoy.isSome = true ↔ (1 ≤ m ∧ m ≤ 13)) ∧
      ((ydoy_date.mk ⟨y⟩ ⟨doy⟩).to_ymd.isSome = true ↔
        (-31 ≤ doy ∧ doy ≤ 374)) := by
  constructor
  · simp only [ymd_date.to_ydoy, year.is_leap, Option.isSome_map']
    rw [month_day_at_isSome]
    omega
  · simp only [ydoy_date.to_ymd, year.is_leap]
    obtain ⟨g, hg⟩ : ∃ g : Int, g = month_guess doy := ⟨_, rfl⟩
    rw [← hg]
    have hgv : (0 ≤ doy → g = (32 * doy) / 1000) ∧
        (doy ≤ 0 → g = -((-(32 * doy)) / 1000)) := by
      rw [hg]; unfold month_guess
      exact ⟨fun h => tdiv_of_nonneg _ _ (by omega) (by norm_num),
        fun h => tdiv_of_nonpos _ _ (by omega) (by norm_num)⟩
    have hgr : (0 ≤ g ∧ g ≤ 11 ↔ (-31 ≤ doy ∧ doy ≤ 374)) ∧
        (g = -1 → doy ≤ 0) := by
      rcases le_total 0 doy with h | h
      · have := hgv.1 h; omega
      · have := hgv.2 h; omega
    by_cases h1 : 0 ≤ g + 1 ∧ g + 1 ≤ 12
    · obtain ⟨c1, e1, v1⟩ := month_day_at_index (is_leap y) (g + 1) h1.1 h1.2
      rw [e1]
      simp only [Option.some_bind, Option.isSome_map']
      rw [month_day_at_isSome]
      rcases b2i_cases (decide (doy - c1 > 0)) with ⟨hm, hb⟩ | ⟨hm, hb⟩
      · rw [hb]
        have hm2 : doy - c1 > 0 := by simpa using hm
        have hlp : b2i (is_leap y) = 0 ∨ b2i (is_leap y) = 1 := by
          rcases b2i_cases (is_leap y) with ⟨-, h⟩ | ⟨-, h⟩ <;> omega
        constructor
        · intro h; apply hgr.1.mp; omega
        · intro h; have := hgr.1.mpr h; omega
      · rw [hb]
        have hm2 : ¬ (doy - c1 > 0) := by simpa using hm
        constructor
        · intro h; apply hgr.1.mp; omega
        · intro h; have := hgr.1.mpr h; omega
    · rw [month_day_at_none (is_leap y) (g + 1) (by omega)]
      simp only [Option.none_bind, Option.isSome_none, Bool.false_eq_true,
        false_iff]
      intro h
      have := hgr.1.mpr h
      omega

/-- C19 as stated fails: a zero month makes `ymd_date::to_ydoy()` read the
table out of bounds, and so do the days of year 400 and -40 in
`ydoy_date::to_ymd()`. -/
theorem table_conversions_counterexample :
    (ymd_date.mk ⟨2001⟩ ⟨0⟩ ⟨1⟩).to_ydoy = none ∧
      (ydoy_date.mk ⟨2001⟩ ⟨400⟩).to_ymd = none ∧
      (ydoy_date.mk ⟨2001⟩ ⟨-40⟩).to_ymd = none := by
  exact ⟨rfl, rfl, rfl⟩

/-! ## Month names -/

/-- Lowering a character gives NUL only for NUL. -/
theorem tolower_eq_zero (c : Nat) : tolower c = 0 ↔ c = 0 := by
  unfold tolower
  by_cases h : 65 ≤ c ∧ c ≤ 90
  · rw [if_pos h]
    constructor <;> intro h2 <;> omega
  · rw [if_neg h]

/-- The read `str[i]` in terms of the rest of the string from `i`. -/
theorem char_at_of_drop (s : List Nat) (i : Nat) (hi : i ≤ s.length) :
    char_at s i = some ((s.drop i).headD 0) := by
  unfold char_at
  rcases Nat.lt_or_eq_of_le hi with h | h
  · rw [if_pos h, List.get?_eq_getElem?, List.getElem?_eq_getElem h,
      List.drop_eq_getElem_cons h]
    rfl
  · rw [if_neg (by omega), if_pos h]
    subst h
    simp

/-- The comparison loop over whole strings: from an index `i` within both
strings, with as many iterations left as reach the end of the longer one, the
result is `0` when the rests of the strings are equal up to case and `1`
otherwise, and no read is out of bounds. -/
theorem lower_strncmp_loop_spec (s1 s2 : List Nat) (h1 : ∀ c ∈ s1, c ≠ 0)
    (h2 : ∀ c ∈ s2, c ≠ 0) :
    ∀ (k i : Nat), i + k = max s1.length s2.length → i ≤ s1.length →
      i ≤ s2.length →
      lower_strncmp_loop s1 s2 i k =
        some (if (s1.drop i).map tolower = (s2.drop i).map tolower then 0
          else 1) := by
  intro k
  induction k with
  | zero =>
    intro i hk hi1 hi2
    have e1 : i = s1.length := by omega
    have e2 : i = s2.length := by omega
    have d1 : s1.drop i = [] := by rw [e1]; exact List.drop_length s1
    have d2 : s2.drop i = [] := by rw [e2]; exact List.drop_length s2
    rw [d1, d2]
    rfl
  | succ k ih =>
    intro i hk hi1 hi2
    unfold lower_strncmp_loop
    rw [char_at_of_drop s1 i hi1, char_at_of_drop s2 i hi2]
    simp only
    rcases Nat.lt_or_eq_of_le hi1 with l1 | l1
    · rcases Nat.lt_or_eq_of_le hi2 with l2 | l2
      · rw [List.drop_eq_getElem_cons l1, List.drop_eq_getElem_cons l2]
        simp only [List.headD_cons, List.map_cons, List.cons.injEq]
        by_cases hc : tolower s1[i] = tolower s2[i]
        · rw [if_neg (not_not.mpr hc), ih (i + 1) (by omega) (by omega) (by omega)]
          simp only [hc, true_and]
        · rw [if_pos hc]
          simp only [hc, false_and, if_false]
      · have d2 : s2.drop i = [] := by rw [l2]; exact List.drop_length s2
        rw [List.drop_eq_getElem_cons l1, d2]
        have hne : tolower s1[i] ≠ tolower 0 := by
          intro h
          have h0 : tolower 0 = 0 := rfl
          rw [h0, tolower_eq_zero] at h
          exact h1 _ (List.getElem_mem l1) h
        simp only [List.headD_cons, List.headD_nil, List.map_cons, List.map_nil]
        rw [if_pos hne]
        simp
    · have d1 : s1.drop i = [] := by rw [l1]; exact List.drop_length s1
      have l2 : i < s2.length := by omega
      rw [List.drop_eq_getElem_cons l2, d1]
      have hne : tolower 0 ≠ tolower s2[i] := by
        intro h
        have h0 : tolower 0 = 0 := rfl
        rw [h0] at h
        exact h2 _ (List.getElem_mem l2) ((tolower_eq_zero _).mp h.symm)
      simp only [List.headD_cons, List.headD_nil, List.map_cons, List.map_nil]
      rw [if_pos hne]
      simp

/-- The comparison `__lower_strncmp__` over whole strings (`n` zero, or the
length of the longer string): `0` exactly when the strings are equal up to
case, with no read out of bounds. -/
theorem lower_strncmp_whole (s1 s2 : List Nat) (n : Nat)
    (h1 : ∀ c ∈ s1, c ≠ 0) (h2 : ∀ c ∈ s2, c ≠ 0)
    (hn : n = 0 ∨ n = max s1.length s2.length) :
    __lower_strncmp__ s1 s2 n =
      some (if eq_ignore_case s1 s2 then 0 else 1) := by
  have hk : (if n = 0 then max (strlen s1) (strlen s2) else n) =
      max s1.length s2.length := by
    unfold strlen
    rcases hn with h | h
    · rw [if_pos h]
    · by_cases h0 : n = 0
      · rw [if_pos h0]
      · rw [if_neg h0, h]
  unfold __lower_strncmp__
  simp only [hk]
  rw [lower_strncmp_loop_spec s1 s2 h1 h2 _ 0 (by omega) (by omega) (by omega)]
  simp only [List.drop_zero, eq_ignore_case]

/-- The search over a table of names, when every comparison is a whole-string
comparison up to case: either no name matches and the result is `0`, or the
result is one more than the index of a matching name. -/
theorem month_search_names_spec (str : List Nat) (n : Nat) :
    ∀ (names : List String) (i : Nat),
      (∀ nm ∈ names, __lower_strncmp__ (c_str nm) str n =
        some (if eq_ignore_case (c_str nm) str then 0 else 1)) →
      ((∀ nm ∈ names, ¬ eq_ignore_case (c_str nm) str) ∧
          month_search_names str n names i = some 0) ∨
        (∃ (k : Nat) (nm : String), names.get? k = some nm ∧
          eq_ignore_case (c_str nm) str ∧
          month_search_names str n names i = some ((i : Int) + k + 1)) := by
  intro names
  induction names with
  | nil =>
    intro i _
    left
    exact ⟨fun nm h => absurd h (List.not_mem_nil nm), rfl⟩
  | cons nm rest ih =>
    intro i hcmp
    have hhead := hcmp nm (List.mem_cons_self nm rest)
    have hrest : ∀ x ∈ rest, __lower_strncmp__ (c_str x) str n =
        some (if eq_ignore_case (c_str x) str then 0 else 1) :=
      fun x hx => hcmp x (List.mem_cons_of_mem nm hx)
    unfold month_search_names
    rw [hhead]
    by_cases hm : eq_ignore_case (c_str nm) str
    · right
      refine ⟨0, nm, rfl, hm, ?_⟩
      simp [hm]
    · simp only [hm, if_false, one_ne_zero]
      rcases ih (i + 1) hrest with ⟨hno, hres⟩ | ⟨k, x, hk, hx, hres⟩
      · left
        refine ⟨?_, hres⟩
        intro y hy
        rcases List.mem_cons.mp hy with h | h
        · rw [h]; exact hm
        · exact hno y h
      · right
        refine ⟨k + 1, x, hk, hx, ?_⟩
        rw [hres]
        push_cast
        congr 1
        ring

/-- The month names contain no NUL, the short names have three characters and
the long names at least three, and a long name of three characters is also a
short name. -/
theorem month_names_shape :
    (∀ nm ∈ month.short_names ++ month.long_names, ∀ c ∈ c_str nm, c ≠ 0) ∧
      (∀ nm ∈ month.short_names, (c_str nm).length = 3) ∧
      (∀ nm ∈ month.long_names, 3 ≤ (c_str nm).length) ∧
      (∀ nm ∈ month.long_names, (c_str nm).length = 3 →
        nm ∈ month.short_names) := by
  decide

/-- Names of different months differ even up to case, across the two
tables. -/
theorem month_names_distinct :
    ∀ j < 12, ∀ k < 12,
      ∀ a ∈ [month.short_names.getD j "", month.long_names.getD j ""],
      ∀ b ∈ [month.short_names.getD k "", month.long_names.getD k ""],
        eq_ignore_case (c_str a) (c_str b) → j = k := by
  decide

/-- A string equal up to case to a NUL-free string is NUL-free. -/
theorem no_nul_of_eq_ignore_case (s t : List Nat) (ht : ∀ c ∈ t, c ≠ 0)
    (h : eq_ignore_case s t) : ∀ c ∈ s, c ≠ 0 := by
  intro c hc h0
  have hm : tolower c ∈ t.map tolower := by
    rw [← h]
    exact List.mem_map_of_mem tolower hc
  obtain ⟨d, hd, hdc⟩ := List.mem_map.mp hm
  rw [h0] at hdc
  have : tolower 0 = 0 := rfl
  rw [this, tolower_eq_zero] at hdc
  exact ht d hd hdc

/-- Strings equal up to case have the same length. -/
theorem length_eq_of_eq_ignore_case (s t : List Nat)
    (h : eq_ignore_case s t) : s.length = t.length := by
  have := congrArg List.length h
  simpa using this

/-- The month constructor on a NUL-free string: either it yields the month of
a name (short for a string of three characters, long for a longer one) that
equals the string up to case, or no name of either table equals the string up
to case and it throws `invalid_argument`; no read is out of bounds. -/
theorem month_month_spec (s : List Nat) (hs : ∀ c ∈ s, c ≠ 0) :
    (∃ (k : Nat) (nm : String),
        (month.short_names.get? k = some nm ∨
          month.long_names.get? k = some nm) ∧
        eq_ignore_case (c_str nm) s ∧
        month.month s = some (.ok ⟨(k : Int) + 1⟩)) ∨
      ((∀ nm ∈ month.short_names ++ month.long_names,
          ¬ eq_ignore_case (c_str nm) s) ∧
        ∃ msg, month.month s = some (.error (.invalid_argument msg))) := by
  obtain ⟨hnul, hshort, hlong, hmay⟩ := month_names_shape
  unfold month.month
  by_cases h3 : strlen s = 3
  · have hcmp : ∀ nm ∈ month.short_names,
        __lower_strncmp__ (c_str nm) s 3 =
          some (if eq_ignore_case (c_str nm) s then 0 else 1) := by
      intro nm hnm
      apply lower_strncmp_whole _ _ _
        (hnul nm (List.mem_append_left _ hnm)) hs
      right
      rw [hshort nm hnm]
      unfold strlen at h3
      omega
    simp only [h3, if_true]
    rcases month_search_names_spec s 3 month.short_names 0 hcmp with
      ⟨hno, hres⟩ | ⟨k, nm, hk, hm, hres⟩
    · right
      rw [hres]
      refine ⟨?_, "Failed to set month from string \"" ++
        String.mk (s.map Char.ofNat) ++ "\"", by simp⟩
      intro nm hnm
      rcases List.mem_append.mp hnm with h | h
      · exact hno nm h
      · intro hm
        have hl := length_eq_of_eq_ignore_case _ _ hm
        unfold strlen at h3
        exact hno nm (hmay nm h (by omega)) hm
    · left
      refine ⟨k, nm, Or.inl hk, hm, ?_⟩
      rw [hres]
      have hk0 : ¬ ((0 : Int) + k + 1 = 0) := by omega
      simp only [Option.map_some', hk0, false_or]
      rw [if_neg (by omega)]
      congr 3
      omega
  · by_cases hgt : strlen s > 3
    · have hcmp : ∀ nm ∈ month.long_names,
          __lower_strncmp__ (c_str nm) s 0 =
            some (if eq_ignore_case (c_str nm) s then 0 else 1) := by
        intro nm hnm
        exact lower_strncmp_whole _ _ _
          (hnul nm (List.mem_append_right _ hnm)) hs (Or.inl rfl)
      simp only [h3, if_false, hgt, if_true]
      rcases month_search_names_spec s 0 month.long_names 0 hcmp with
        ⟨hno, hres⟩ | ⟨k, nm, hk, hm, hres⟩
      · right
        rw [hres]
        refine ⟨?_, "Failed to set month from string \"" ++
        String.mk (s.map Char.ofNat) ++ "\"", by simp⟩
        intro nm hnm
        rcases List.mem_append.mp hnm with h | h
        · intro hm
          have hl := length_eq_of_eq_ignore_case _ _ hm
          have := hshort nm h
          unfold strlen at hgt
          omega
        · exact hno nm h
      · left
        refine ⟨k, nm, Or.inr hk, hm, ?_⟩
        rw [hres]
        have hk0 : ¬ ((0 : Int) + k + 1 = 0) := by omega
        simp only [Option.map_some', hk0, false_or]
        rw [if_neg (by omega)]
        congr 3
        omega
    · right
      simp only [h3, if_false, hgt]
      refine ⟨?_, "Failed to set month from string \"" ++
        String.mk (s.map Char.ofNat) ++ "\"", by simp⟩
      intro nm hnm hm
      have hl := length_eq_of_eq_ignore_case _ _ hm
      unfold strlen at hgt h3
      rcases List.mem_append.mp hnm with h | h
      · have := hshort nm h
        omega
      · have := hlong nm h
        omega

/-- A name read from a table at an index is the entry `getD` gives there, and
the index is within the table. -/
theorem getD_of_get? (l : List String) (k : Nat) (x : String)
    (h : l.get? k = some x) : l.getD k "" = x ∧ k < l.length ∧ x ∈ l := by
  refine ⟨?_, ?_, List.get?_mem h⟩
  · rw [List.get?_eq_getElem?] at h
    simp [List.getD, h]
  · by_contra hc
    rw [List.get?_eq_none.mpr (by omega)] at h
    exact absurd h (by simp)

/-- The month constructor on a string equal up to case to the name of month
`m` in either table. -/
theorem month_month_of_name (m : Int) (s : List Nat) (nm : String)
    (hm1 : 1 ≤ m) (hm2 : m ≤ 12)
    (hnm : month.short_names.get? (m - 1).toNat = some nm ∨
      month.long_names.get? (m - 1).toNat = some nm)
    (hs : eq_ignore_case s (c_str nm)) :
    month.month s = some (.ok ⟨m⟩) := by
  obtain ⟨hnul, -, -, -⟩ := month_names_shape
  have hmem : nm ∈ month.short_names ++ month.long_names := by
    rcases hnm with h | h
    · exact List.mem_append_left _ (getD_of_get? _ _ _ h).2.2
    · exact List.mem_append_right _ (getD_of_get? _ _ _ h).2.2
  have hs0 := no_nul_of_eq_ignore_case s (c_str nm) (hnul nm hmem) hs
  have hsym : eq_ignore_case (c_str nm) s := Eq.symm hs
  rcases month_month_spec s hs0 with ⟨k, x, hk, hx, hres⟩ | ⟨hno, -⟩
  · have hj : (m - 1).toNat < 12 := by omega
    have hk12 : k < 12 := by
      rcases hk with h | h
      · exact (getD_of_get? _ _ _ h).2.1
      · exact (getD_of_get? _ _ _ h).2.1
    have hxin : x ∈ [month.short_names.getD k "", month.long_names.getD k ""] := by
      rcases hk with h | h
      · rw [(getD_of_get? _ _ _ h).1]; simp
      · rw [(getD_of_get? _ _ _ h).1]; simp
    have hnin : nm ∈ [month.short_names.getD (m - 1).toNat "",
        month.long_names.getD (m - 1).toNat ""] := by
      rcases hnm with h | h
      · rw [(getD_of_get? _ _ _ h).1]; simp
      · rw [(getD_of_get? _ _ _ h).1]; simp
    have hxn : eq_ignore_case (c_str x) (c_str nm) := Eq.trans hx hs
    have hkm := month_names_distinct k hk12 (m - 1).toNat hj x hxin nm hnin hxn
    rw [hres]
    congr 3
    omega
  · exact absurd hsym (hno nm hmem)

/-- C17: for every month `m` in `1..12` and every string equal up to ASCII
letter case to the short or the long name of `m`, the constructor `month(s)`
succeeds and yields month `m`; so `month("jan")`, `month("JAN")` and
`month("January")` yield 1, and `month(m.short_name())` and
`month(m.long_name())` yield `m`, also for "May". -/
theorem month_from_name (m : Int) (s : List Nat) (nm : String)
    (hm1 : 1 ≤ m) (hm2 : m ≤ 12)
    (hnm : month.short_names.get? (m - 1).toNat = some nm ∨
      month.long_names.get? (m - 1).toNat = some nm)
    (hs : eq_ignore_case s (c_str nm)) :
    month.month s = some (.ok ⟨m⟩) ∧
      (∃ sn ln : String, (month.mk m).short_name = some sn ∧
        (month.mk m).long_name = some ln ∧
        month.month (c_str sn) = some (.ok ⟨m⟩) ∧
        month.month (c_str ln) = some (.ok ⟨m⟩)) ∧
      month.month (c_str "jan") = some (.ok ⟨1⟩) ∧
      month.month (c_str "JAN") = some (.ok ⟨1⟩) ∧
      month.month (c_str "January") = some (.ok ⟨1⟩) ∧
      month.month (c_str "May") = some (.ok ⟨5⟩) := by
  refine ⟨month_month_of_name m s nm hm1 hm2 hnm hs, ?_, rfl, rfl, rfl, rfl⟩
  have hidx : (m - 1).toNat < 12 := by omega
  obtain ⟨sn, hsn⟩ : ∃ sn, month.short_names.get? (m - 1).toNat = some sn :=
    ⟨_, List.get?_eq_get (l := month.short_names) hidx⟩
  obtain ⟨ln, hln⟩ : ∃ ln, month.long_names.get? (m - 1).toNat = some ln :=
    ⟨_, List.get?_eq_get (l := month.long_names) hidx⟩
  refine ⟨sn, ln, ?_, ?_, ?_, ?_⟩
  · simp only [month.short_name]
    rw [if_pos (by omega), hsn]
  · simp only [month.long_name]
    rw [if_pos (by omega), hln]
  · exact month_month_of_name m _ sn hm1 hm2 (Or.inl hsn) rfl
  · exact month_month_of_name m _ ln hm1 hm2 (Or.inr hln) rfl

/-- C17, at the string "dEcEmBeR". -/
theorem month_from_name_witness :
    eq_ignore_case (c_str "dEcEmBeR") (c_str "December") ∧
      month.month (c_str "dEcEmBeR") = some (.ok ⟨12⟩) :=
  ⟨by decide,
    (month_from_name 12 (c_str "dEcEmBeR") "December" (by decide) (by decide)
      (Or.inr rfl) (by decide)).1⟩

/-- C18: for every ASCII string `s`, `month(s)` fails with `invalid_argument`
exactly when `s` is not equal up to ASCII letter case to one of the 12 short
or 12 long names, and otherwise succeeds with a month for which `is_valid()`
holds; it fails for every string shorter than 3 characters, for "xyz", for
"Janu", "Januaryx" and "Janx". -/
theorem month_from_string_fails_iff (s : List Nat) (hs : is_ascii s) :
    ((∃ msg, month.month s = some (.error (.invalid_argument msg))) ↔
        ¬ ∃ nm ∈ month.short_names ++ month.long_names,
          eq_ignore_case s (c_str nm)) ∧
      ((∃ m, month.month s = some (.ok m)) ↔
        ∃ nm ∈ month.short_names ++ month.long_names,
          eq_ignore_case s (c_str nm)) ∧
      (∀ m, month.month s = some (.ok m) → m.is_valid = true) ∧
      (strlen s < 3 →
        ∃ msg, month.month s = some (.error (.invalid_argument msg))) ∧
      (∃ msg, month.month (c_str "xyz") =
        some (.error (.invalid_argument msg))) ∧
      (∃ msg, month.month (c_str "Janu") =
        some (.error (.invalid_argument msg))) ∧
      (∃ msg, month.month (c_str "Januaryx") =
        some (.error (.invalid_argument msg))) ∧
      (∃ msg, month.month (c_str "Janx") =
        some (.error (.invalid_argument msg))) := by
  have hs0 : ∀ c ∈ s, c ≠ 0 := fun c hc => by have := hs c hc; omega
  obtain ⟨-, hshort, hlong, -⟩ := month_names_shape
  have hspec := month_month_spec s hs0
  refine ⟨?_, ?_, ?_, ?_, ⟨_, rfl⟩, ⟨_, rfl⟩, ⟨_, rfl⟩, ⟨_, rfl⟩⟩
  · constructor
    · rintro ⟨msg, hmsg⟩ ⟨nm, hnm, hm⟩
      rcases hspec with ⟨k, x, hk, hx, hres⟩ | ⟨hno, -⟩
      · rw [hres] at hmsg
        exact absurd hmsg (by simp)
      · exact hno nm hnm (Eq.symm hm)
    · intro hno
      rcases hspec with ⟨k, x, hk, hx, hres⟩ | ⟨-, hmsg⟩
      · exfalso
        apply hno
        refine ⟨x, ?_, Eq.symm hx⟩
        rcases hk with h | h
        · exact List.mem_append_left _ (getD_of_get? _ _ _ h).2.2
        · exact List.mem_append_right _ (getD_of_get? _ _ _ h).2.2
      · exact hmsg
  · constructor
    · rintro ⟨m, hm⟩
      rcases hspec with ⟨k, x, hk, hx, hres⟩ | ⟨-, msg, hmsg⟩
      · refine ⟨x, ?_, Eq.symm hx⟩
        rcases hk with h | h
        · exact List.mem_append_left _ (getD_of_get? _ _ _ h).2.2
        · exact List.mem_append_right _ (getD_of_get? _ _ _ h).2.2
      · rw [hmsg] at hm
        exact absurd hm (by simp)
    · rintro ⟨nm, hnm, hm⟩
      rcases hspec with ⟨k, x, hk, hx, hres⟩ | ⟨hno, -⟩
      · exact ⟨_, hres⟩
      · exact absurd (Eq.symm hm) (hno nm hnm)
  · intro m hm
    rcases hspec with ⟨k, x, hk, hx, hres⟩ | ⟨-, msg, hmsg⟩
    · have hk12 : k < 12 := by
        rcases hk with h | h
        · exact (getD_of_get? _ _ _ h).2.1
        · exact (getD_of_get? _ _ _ h).2.1
      rw [hres] at hm
      simp only [Option.some.injEq, Except.ok.injEq] at hm
      rw [← hm]
      simp only [month.is_valid, Bool.and_eq_true, decide_eq_true_eq]
      omega
    · rw [hmsg] at hm
      exact absurd hm (by simp)
  · intro hlt
    rcases hspec with ⟨k, x, hk, hx, hres⟩ | ⟨-, hmsg⟩
    · exfalso
      have hl := length_eq_of_eq_ignore_case _ _ hx
      unfold strlen at hlt
      rcases hk with h | h
      · have := hshort x (getD_of_get? _ _ _ h).2.2
        omega
      · have := hlong x (getD_of_get? _ _ _ h).2.2
        omega
    · exact hmsg

/-- C18, at the string "xyz". -/
theorem month_from_string_fails_iff_witness :
    is_ascii (c_str "xyz") ∧
      ((∃ msg, month.month (c_str "xyz") =
          some (.error (.invalid_argument msg))) ↔
        ¬ ∃ nm ∈ month.short_names ++ month.long_names,
          eq_ignore_case (c_str "xyz") (c_str nm)) :=
  ⟨by decide, (month_from_string_fails_iff (c_str "xyz") (by decide)).1⟩


/-! ## The anchor, year lengths and the window of the four-year blocks -/

/-- C21: the anchor constant of `to_ydoy` and `ydoy2mjd` is the MJD of
1901-01-01: `jan11901 = 15385 = cal2mjd(1901, 1, 1)`, and `to_ydoy` of it is
`(1901, 1)`. -/
theorem jan11901_anchor :
    jan11901 = 15385 ∧ cal2mjd 1901 1 1 = .ok jan11901 ∧
      (modified_julian_day.mk jan11901).to_ydoy = ⟨⟨1901⟩, ⟨1⟩⟩ := by
  exact ⟨rfl, rfl, rfl⟩

/-- C23: within the window of the four-year-block algorithm, for every valid
calendar date `(y, m, d)` with `1901 ≤ y ≤ 2100`, `to_ydoy` of the MJD of the
date is exactly `(y, month_day[is_leap(y)][m-1] + d)`. -/
theorem to_ydoy_agrees_in_window (y m d : Int) (hv : valid_ymd y m d)
    (h1 : 1901 ≤ y) (h2 : y ≤ 2100) :
    ∃ mjd c : Int, cal2mjd y m d = .ok mjd ∧
      month_day_at (b2i (is_leap y)) (m - 1) = some c ∧
      (modified_julian_day.mk mjd).to_ydoy = ⟨⟨y⟩, ⟨c + d⟩⟩ := by
  obtain ⟨c, hc⟩ := month_day_at_some (is_leap y) m hv.1 hv.2.1
  exact ⟨cal2mjd_formula y m d, c, cal2mjd_of_valid y m d hv, hc,
    to_ydoy_of_valid y m d c hv h1 h2 hc⟩

/-- C23, at 2100-12-31, the last day of the window. -/
theorem to_ydoy_agrees_in_window_witness :
    valid_ymd 2100 12 31 ∧
      ∃ mjd c : Int, cal2mjd 2100 12 31 = .ok mjd ∧
        month_day_at (b2i (is_leap 2100)) (12 - 1) = some c ∧
        (modified_julian_day.mk mjd).to_ydoy = ⟨⟨2100⟩, ⟨c + 31⟩⟩ :=
  ⟨by decide,
    to_ydoy_agrees_in_window 2100 12 31 (by decide) (by decide) (by decide)⟩

/-- January 1 is a valid date in every year. -/
theorem valid_jan1 (y : Int) : valid_ymd y 1 1 :=
  valid_ymd_of_bounds y 1 1 (by norm_num) (by norm_num) (by norm_num)
    (by norm_num) (fun h => by omega) (fun h => by omega) (fun h => by omega)

/-- C27: the closed formula of `cal2mjd` and the leap-year predicate agree on
the length of every year: for `-4799 ≤ y ≤ 9998`,
`cal2mjd(y + 1, 1, 1) - cal2mjd(y, 1, 1)` is 366 when `is_leap(y)` and 365
otherwise. -/
theorem cal2mjd_year_length (y : Int) (h1 : -4799 ≤ y) (h2 : y ≤ 9998) :
    ∃ a b : Int, cal2mjd (y + 1) 1 1 = .ok a ∧ cal2mjd y 1 1 = .ok b ∧
      a - b = if is_leap y = true then 366 else 365 := by
  refine ⟨cal2mjd_formula (y + 1) 1 1, cal2mjd_formula y 1 1,
    cal2mjd_of_valid _ _ _ (valid_jan1 _), cal2mjd_of_valid _ _ _ (valid_jan1 _),
    ?_⟩
  obtain ⟨Y, hY⟩ : ∃ Y : Int, Y = y + 4799 := ⟨_, rfl⟩
  obtain ⟨Y2, hY2⟩ : ∃ Y2 : Int, Y2 = Y + 1 := ⟨_, rfl⟩
  rw [cal2mjd_formula_floor y 1 1 Y 11 (by norm_num) (by norm_num)
      (by simp [hY]) (by simp) (by omega),
    cal2mjd_formula_floor (y + 1) 1 1 Y2 11 (by norm_num) (by norm_num)
      (by simp; omega) (by simp) (by omega)]
  obtain ⟨s1, s2⟩ := year_terms_step Y
  rw [← hY2] at s1 s2
  have hlY : ((Y2 % 4 = 0 ∧ (Y2 % 100 ≠ 0 ∨ Y2 % 400 = 0)) ↔
      is_leap y = true) := by
    rw [is_leap_iff]; omega
  rw [hlY] at s1 s2
  by_cases hl : is_leap y = true
  · rw [if_pos hl]
    have s := s1 hl
    clear s1 s2 hlY
    omega
  · rw [if_neg hl]
    have s := s2 hl
    clear s1 s2 hlY
    omega

/-- C27, from 2000 to 2001. -/
theorem cal2mjd_year_length_witness :
    ((-4799 : Int) ≤ 2000 ∧ (2000 : Int) ≤ 9998) ∧
      ∃ a b : Int, cal2mjd (2000 + 1) 1 1 = .ok a ∧ cal2mjd 2000 1 1 = .ok b ∧
        a - b = if is_leap 2000 = true then 366 else 365 :=
  ⟨by decide, cal2mjd_year_length 2000 (by decide) (by decide)⟩


/-- The record `to_ydoy` returns is the narrowing of the two `long` values of
`to_ydoy_long`. -/
theorem to_ydoy_eq_cast (mjd : modified_julian_day) :
    mjd.to_ydoy =
      ⟨⟨to_int mjd.to_ydoy_long.1⟩, ⟨to_int mjd.to_ydoy_long.2⟩⟩ :=
  rfl

/-- The four-year-block decomposition of `to_ydoy` is undone by the formula of
`ydoy2mjd`, before as well as after the anchor: with `q` the block count,
`dl` the days left and `dy` the years within the block, the year offset
`4 * q + dy` has truncating quotient `q` and remainder `dy` by 4. -/
theorem ydoy_block_inverse (D q dl dy : Int) (hq : q = Int.tdiv D 1461)
    (hdl : dl = D - 1461 * q)
    (hdy : dy = Int.tdiv dl 365 - Int.tdiv dl 1460) :
    Int.tdiv (4 * q + dy) 4 = q ∧ Int.tmod (4 * q + dy) 4 = dy ∧
      -1461 < dl ∧ dl < 1461 ∧ -4 < dy ∧ dy < 4 := by
  obtain ⟨e1, p1, n1⟩ := tdiv_tmod_spec D 1461 (by norm_num)
  rw [← hq] at e1
  have hdlm : dl = Int.tmod D 1461 := by omega
  rw [← hdlm] at p1 n1
  rcases le_total 0 D with hD | hD
  · obtain ⟨a1, a2, a3⟩ := p1 hD
    have hq0 : 0 ≤ q := by rw [hq, a3]; omega
    have e365 := tdiv_of_nonneg dl 365 a1 (by norm_num)
    have e1460 := tdiv_of_nonneg dl 1460 a1 (by norm_num)
    have hdy2 : 0 ≤ dy ∧ dy < 4 := by omega
    have t1 := tdiv_of_nonneg (4 * q + dy) 4 (by omega) (by norm_num)
    have t2 := tmod_eq_sub (4 * q + dy) 4
    refine ⟨by omega, by omega, by omega, by omega, by omega, by omega⟩
  · obtain ⟨b1, b2⟩ := n1 hD
    have hq0 : q ≤ 0 := by
      rw [hq, tdiv_of_nonpos D 1461 hD (by norm_num)]; omega
    have e365 := tdiv_of_nonpos dl 365 b2 (by norm_num)
    have e1460 := tdiv_of_nonpos dl 1460 b2 (by norm_num)
    have hdy2 : -4 < dy ∧ dy ≤ 0 := by omega
    have t1 := tdiv_of_nonpos (4 * q + dy) 4 (by omega) (by norm_num)
    have t2 := tmod_eq_sub (4 * q + dy) 4
    refine ⟨by omega, by omega, by omega, by omega, by omega, by omega⟩

/-- C22: `ydoy2mjd` is a left inverse of `to_ydoy` on every Modified Julian
Day whose year and day of year fit an `int`, also before the 1901 anchor:
`ydoy2mjd` applied to the year and day of year of `to_ydoy(mjd)` is `mjd`. -/
theorem ydoy2mjd_left_inverse (mjd : Int)
    (hy : -2147483648 ≤ (modified_julian_day.mk mjd).to_ydoy_long.1 ∧
      (modified_julian_day.mk mjd).to_ydoy_long.1 ≤ 2147483647)
    (hd : -2147483648 ≤ (modified_julian_day.mk mjd).to_ydoy_long.2 ∧
      (modified_julian_day.mk mjd).to_ydoy_long.2 ≤ 2147483647) :
    ydoy2mjd (modified_julian_day.mk mjd).to_ydoy.__year
      (modified_julian_day.mk mjd).to_ydoy.__doy = ⟨mjd⟩ := by
  rw [to_ydoy_eq_cast]
  simp only
  rw [to_int_fits _ hy, to_int_fits _ hd]
  obtain ⟨q, hq⟩ : ∃ q : Int, q = Int.tdiv (mjd - 15385) 1461 := ⟨_, rfl⟩
  obtain ⟨dl, hdl⟩ : ∃ dl : Int, dl = mjd - 15385 - 1461 * q := ⟨_, rfl⟩
  obtain ⟨dy, hdy⟩ : ∃ dy : Int,
      dy = Int.tdiv dl 365 - Int.tdiv dl 1460 := ⟨_, rfl⟩
  obtain ⟨k1, k2, -⟩ := ydoy_block_inverse (mjd - 15385) q dl dy hq hdl hdy
  have e1 : (modified_julian_day.mk mjd).to_ydoy_long =
      (1901 + 4 * q + dy, dl - 365 * dy + 1) := by
    simp only [modified_julian_day.to_ydoy_long, jan11901, ← hq, ← hdl, ← hdy]
  rw [e1]
  simp only [ydoy2mjd, jan11901]
  have e2 : 1901 + 4 * q + dy - 1901 = 4 * q + dy := by omega
  rw [e2, k1, k2]
  congr 1
  omega

/-- C22, at the day before the anchor, MJD 15384. -/
theorem ydoy2mjd_left_inverse_witness :
    ((-2147483648 : Int) ≤ (modified_julian_day.mk 15384).to_ydoy_long.1 ∧
      (modified_julian_day.mk 15384).to_ydoy_long.1 ≤ 2147483647) ∧
    ydoy2mjd (modified_julian_day.mk 15384).to_ydoy.__year
      (modified_julian_day.mk 15384).to_ydoy.__doy = ⟨15384⟩ :=
  ⟨by decide, ydoy2mjd_left_inverse 15384 (by decide) (by decide)⟩

/-- Reading `my` one lower (and the month term twelve months higher) makes the
floor-division formula strictly larger. -/
theorem floored_shift (y my mp mq : Int) (h : mq = mp + 12) :
    (1461 * (y + my + 4800)) / 4 + (367 * mp) / 12
        - (3 * ((y + my + 4900) / 100)) / 4 <
      (1461 * (y + (my - 1) + 4800)) / 4 + (367 * mq) / 12
        - (3 * ((y + (my - 1) + 4900) / 100)) / 4 := by
  subst h
  have ha : (1461 * (y + my + 4800)) / 4 - (1461 * (y + (my - 1) + 4800)) / 4
      ≤ 366 := by omega
  have hb : (367 * (mp + 12)) / 12 = (367 * mp) / 12 + 367 := by omega
  have he : (y + (my - 1) + 4900) / 100 ≤ (y + my + 4900) / 100 := by omega
  have hc : (3 * ((y + (my - 1) + 4900) / 100)) / 4 ≤
      (3 * ((y + my + 4900) / 100)) / 4 := by omega
  omega

/-- The divisions of the `cal2mjd` formula on a valid date from -4800-03-01
onward: all but the one of `my` have a non-negative numerator. -/
theorem cal2mjd_divisions_parts (y m d : Int) (hv : valid_ymd y m d)
    (hlo : -4800 < y ∨ (y = -4800 ∧ 3 ≤ m)) :
    Int.tdiv (1461 * (y + Int.tdiv (m - 14) 12 + 4800)) 4 =
        (1461 * (y + Int.tdiv (m - 14) 12 + 4800)) / 4 ∧
      Int.tdiv (367 * (m - 2 - 12 * Int.tdiv (m - 14) 12)) 12 =
        (367 * (m - 2 - 12 * Int.tdiv (m - 14) 12)) / 12 ∧
      Int.tdiv (y + Int.tdiv (m - 14) 12 + 4900) 100 =
        (y + Int.tdiv (m - 14) 12 + 4900) / 100 ∧
      Int.tdiv (3 * Int.tdiv (y + Int.tdiv (m - 14) 12 + 4900) 100) 4 =
        (3 * Int.tdiv (y + Int.tdiv (m - 14) 12 + 4900) 100) / 4 ∧
      Int.tdiv (m - 14) 12 = (if m ≤ 2 then -1 else 0) ∧
      (Int.tdiv (m - 14) 12 = (m - 14) / 12 ↔ m = 2) := by
  have hm1 := hv.1
  have hm2 := hv.2.1
  have hmy : Int.tdiv (m - 14) 12 = if m ≤ 2 then -1 else 0 := by
    rw [tdiv_of_nonpos _ _ (by omega) (by norm_num)]
    split_ifs <;> omega
  have hmyb : Int.tdiv (m - 14) 12 = -1 ∨ Int.tdiv (m - 14) 12 = 0 := by
    rw [hmy]; split_ifs <;> simp
  have hmy2 : (m ≤ 2 → Int.tdiv (m - 14) 12 = -1) ∧
      (¬ m ≤ 2 → Int.tdiv (m - 14) 12 = 0) := by
    rw [hmy]; constructor <;> intro h <;> simp [h]
  generalize Int.tdiv (m - 14) 12 = my at *
  have hY : 0 ≤ y + my + 4800 := by
    by_cases h : m ≤ 2
    · have := hmy2.1 h; omega
    · have := hmy2.2 h; omega
  have h100 : 0 ≤ Int.tdiv (y + my + 4900) 100 := by
    rw [tdiv_of_nonneg _ _ (by omega) (by norm_num)]; omega
  refine ⟨tdiv_of_nonneg _ _ (by omega) (by norm_num),
    tdiv_of_nonneg _ _ (by omega) (by norm_num),
    tdiv_of_nonneg _ _ (by omega) (by norm_num),
    tdiv_of_nonneg _ _ (by omega) (by norm_num), hmy, ?_⟩
  by_cases h : m ≤ 2
  · have := hmy2.1 h; omega
  · have := hmy2.2 h; omega

/-- On a valid date from -4800-03-01 onward the formula read with floor
division gives the value of `cal2mjd` exactly in February. -/
theorem cal2mjd_floored_iff (y m d : Int) (hv : valid_ymd y m d)
    (hlo : -4800 < y ∨ (y = -4800 ∧ 3 ≤ m)) :
    cal2mjd_formula_floored y m d = cal2mjd_formula y m d ↔ m = 2 := by
  obtain ⟨h1, h2, h3, h4, hmy, hiff⟩ := cal2mjd_divisions_parts y m d hv hlo
  have hm1 := hv.1
  have hm2 := hv.2.1
  simp only [cal2mjd_formula, cal2mjd_formula_floored]
  rw [h1, h2, h4, h3]
  clear h1 h2 h3 h4
  generalize Int.tdiv (m - 14) 12 = my at *
  constructor
  · intro h
    by_contra hne
    have hf : (m - 14) / 12 = my - 1 := by
      split_ifs at hmy <;> omega
    rw [hf] at h
    have := floored_shift y my (m - 2 - 12 * my) (m - 2 - 12 * (my - 1))
      (by ring)
    omega
  · intro h
    rw [← hiff.mpr h]

/-- C26 (amended): for every valid calendar date from -4800-03-01 onward,
`cal2mjd` returns the value of its formula, in which each integer division
other than `my = (month - 14) / 12` has a non-negative numerator and yields
the same value under truncation toward zero as under floor division; `my`
itself, which is -1 for January and February and 0 otherwise, agrees with the
floor quotient only for February, and the formula read with floor division
throughout gives the value of `cal2mjd` only for February. -/
theorem cal2mjd_divisions_floor_like (y m d : Int) (hv : valid_ymd y m d)
    (hlo : -4800 < y ∨ (y = -4800 ∧ 3 ≤ m)) :
    cal2mjd y m d = .ok (cal2mjd_formula y m d) ∧
      (Int.tdiv (1461 * (y + Int.tdiv (m - 14) 12 + 4800)) 4 =
        (1461 * (y + Int.tdiv (m - 14) 12 + 4800)) / 4 ∧
      Int.tdiv (367 * (m - 2 - 12 * Int.tdiv (m - 14) 12)) 12 =
        (367 * (m - 2 - 12 * Int.tdiv (m - 14) 12)) / 12 ∧
      Int.tdiv (y + Int.tdiv (m - 14) 12 + 4900) 100 =
        (y + Int.tdiv (m - 14) 12 + 4900) / 100 ∧
      Int.tdiv (3 * Int.tdiv (y + Int.tdiv (m - 14) 12 + 4900) 100) 4 =
        (3 * Int.tdiv (y + Int.tdiv (m - 14) 12 + 4900) 100) / 4 ∧
      Int.tdiv (m - 14) 12 = (if m ≤ 2 then -1 else 0) ∧
      (Int.tdiv (m - 14) 12 = (m - 14) / 12 ↔ m = 2)) ∧
      (cal2mjd_formula_floored y m d = cal2mjd_formula y m d ↔ m = 2) :=
  ⟨cal2mjd_of_valid y m d hv, cal2mjd_divisions_parts y m d hv hlo,
    cal2mjd_floored_iff y m d hv hlo⟩

/-- C26, at 2000-02-29. -/
theorem cal2mjd_divisions_floor_like_witness :
    valid_ymd 2000 2 29 ∧ cal2mjd 2000 2 29 = .ok (cal2mjd_formula 2000 2 29) ∧
      (cal2mjd_formula_floored 2000 2 29 = cal2mjd_formula 2000 2 29 ↔
        (2 : Int) = 2) :=
  ⟨by decide,
    (cal2mjd_divisions_floor_like 2000 2 29 (by decide) (by decide)).1,
    (cal2mjd_divisions_floor_like 2000 2 29 (by decide) (by decide)).2.2⟩

/-- C26 as stated fails for `my`: for 2000-01-01 the truncating quotient of
`1 - 14` by 12 is -1 while the floor quotient is -2, and `cal2mjd` returns
51544 while the formula read with floor division gives 51546; for 2000-03-01
the truncating quotient of `3 - 14` by 12 is 0 while the floor quotient is
-1. -/
theorem cal2mjd_divisions_counterexample :
    valid_ymd 2000 1 1 ∧ Int.tdiv ((1 : Int) - 14) 12 = -1 ∧
      ((1 : Int) - 14) / 12 = -2 ∧
      cal2mjd 2000 1 1 = .ok 51544 ∧ cal2mjd_formula_floored 2000 1 1 = 51546 ∧
      valid_ymd 2000 3 1 ∧ Int.tdiv ((3 : Int) - 14) 12 = 0 ∧
      ((3 : Int) - 14) / 12 = -1 := by
  exact ⟨by decide, by decide, by decide, rfl, by decide, by decide, by decide,
    by decide⟩


/-! ## The month estimate of `ydoy_date::to_ymd()` and its assertions -/

/-- The table read `month_day_at` succeeds only at an index in `0..12`. -/
theorem month_day_at_range (lp : Bool) (i c : Int)
    (h : month_day_at (b2i lp) i = some c) : 0 ≤ i ∧ i ≤ 12 := by
  apply (month_day_at_isSome lp i).mp
  rw [h]; rfl

/-- C24: the linear month estimate is within one month of the truth and never
overshoots: for every leap flag and valid day of year, some 0-based month
index `t` has `month_day[leap][t] < doy ≤ month_day[leap][t+1]`, and every such
`t` satisfies `guess ≤ t ≤ guess + 1` with the correction bit
`more = (doy > month_day[leap][guess+1])` equal to `t - guess` (so `t` is
unique). -/
theorem month_guess_within_one (lp : Bool) (doy : Int) (h1 : 1 ≤ doy)
    (h2 : doy ≤ 365 + b2i lp) :
    (∃ t lo hi : Int, 0 ≤ t ∧ month_day_at (b2i lp) t = some lo ∧
      month_day_at (b2i lp) (t + 1) = some hi ∧ lo < doy ∧ doy ≤ hi) ∧
    (∀ t lo hi : Int, 0 ≤ t → month_day_at (b2i lp) t = some lo →
      month_day_at (b2i lp) (t + 1) = some hi → lo < doy → doy ≤ hi →
      ∃ c1 : Int, month_day_at (b2i lp) (month_guess doy + 1) = some c1 ∧
        month_guess doy ≤ t ∧ t ≤ month_guess doy + 1 ∧
        b2i (decide (doy - c1 > 0)) = t - month_guess doy) := by
  obtain ⟨c1, c2, hi2, e1, e2, e3, g0, g11, gm, c0, b1, b2⟩ :=
    month_search lp doy h1 h2
  have hmore : b2i (decide (doy - c1 > 0)) = 0 ∨
      b2i (decide (doy - c1 > 0)) = 1 := by
    rcases b2i_cases (decide (doy - c1 > 0)) with ⟨-, h⟩ | ⟨-, h⟩ <;> omega
  obtain ⟨more, hm⟩ : ∃ more : Int, more = b2i (decide (doy - c1 > 0)) := ⟨_, rfl⟩
  obtain ⟨g, hg⟩ : ∃ g : Int, g = month_guess doy := ⟨_, rfl⟩
  rw [← hm] at e2 e3 gm hmore
  rw [← hg] at e1 e2 e3 g0 g11 gm
  rw [← hg]
  refine ⟨⟨g + more, c2, hi2, by omega, e2, e3, b1, b2⟩, ?_⟩
  intro t lo hi ht0 hlo hhi hb1 hb2
  have ht12 := (month_day_at_range lp (t + 1) hi hhi).2
  have ht : t = g + more := by
    rcases lt_trichotomy t (g + more) with h | h | h
    · have := month_day_at_mono lp (t + 1) (g + more) hi c2 (by omega) (by omega)
        (by omega) hhi e2
      omega
    · exact h
    · have := month_day_at_mono lp (g + more + 1) t hi2 lo (by omega) (by omega)
        (by omega) e3 hlo
      omega
  exact ⟨c1, e1, by omega, by omega, by omega⟩

/-- C24, at day 60 of a leap year (February 29, month index 1). -/
theorem month_guess_within_one_witness :
    ((1 : Int) ≤ 60 ∧ (60 : Int) ≤ 365 + b2i true) ∧
      ∃ c1 : Int, month_day_at (b2i true) (month_guess 60 + 1) = some c1 ∧
        month_guess 60 ≤ 1 ∧ 1 ≤ month_guess 60 + 1 ∧
        b2i (decide (60 - c1 > 0)) = 1 - month_guess 60 :=
  ⟨by decide,
    (month_guess_within_one true 60 (by decide) (by decide)).2 1 31 60
      (by decide) rfl rfl (by decide) (by decide)⟩

/-- The DEBUG assertions of `ydoy_date::to_ymd()` on a valid day of year: the
second always holds, the first exactly up to day 343. -/
theorem to_ymd_asserts_spec (y doy : Int) (h1 : 1 ≤ doy)
    (h2 : doy ≤ 365 + b2i (is_leap y)) :
    ((ydoy_date.mk ⟨y⟩ ⟨doy⟩).to_ymd_assert_guess = true ↔ doy ≤ 343) ∧
      (ydoy_date.mk ⟨y⟩ ⟨doy⟩).to_ymd_assert_month = some true := by
  obtain ⟨c1, c2, hi2, e1, e2, e3, g0, g11, gm, c0, b1, b2⟩ :=
    month_search (is_leap y) doy h1 h2
  have hmore : b2i (decide (doy - c1 > 0)) = 0 ∨
      b2i (decide (doy - c1 > 0)) = 1 := by
    rcases b2i_cases (decide (doy - c1 > 0)) with ⟨-, h⟩ | ⟨-, h⟩ <;> omega
  have hg : month_guess doy = (32 * doy) / 1000 := by
    unfold month_guess
    exact tdiv_of_nonneg _ _ (by omega) (by norm_num)
  constructor
  · simp only [ydoy_date.to_ymd_assert_guess, Bool.and_eq_true,
      decide_eq_true_eq]
    rw [hg]
    omega
  · simp only [ydoy_date.to_ymd_assert_month, year.is_leap, e1,
      Option.map_some', Option.some.injEq, Bool.and_eq_true,
      decide_eq_true_eq]
    omega

/-- C25 fails in the code at day 344 (December 10) of 2001, a valid day of
year: the estimate is 11, so the first DEBUG assertion
`guess >= 0 && guess < 11` is false, although the second assertion holds and
the conversion result is right. -/
theorem to_ymd_assert_guess_fails :
    ((1 : Int) ≤ 344 ∧ (344 : Int) ≤ 365) ∧ month_guess 344 = 11 ∧
      (ydoy_date.mk ⟨2001⟩ ⟨344⟩).to_ymd_assert_guess = false ∧
      (ydoy_date.mk ⟨2001⟩ ⟨344⟩).to_ymd_assert_month = some true ∧
      (ydoy_date.mk ⟨2001⟩ ⟨344⟩).to_ymd = some ⟨⟨2001⟩, ⟨12⟩, ⟨10⟩⟩ := by
  exact ⟨by decide, rfl, rfl, rfl, rfl⟩


/-! ## Durations: normalisation, the two narrowing paths, construction -/

/-- A value strictly between `-mx` and `mx` has truncating quotient 0 and is
its own remainder. -/
theorem tdiv_tmod_small (r mx : Int) (h1 : -mx < r) (h2 : r < mx) :
    Int.tdiv r mx = 0 ∧ Int.tmod r mx = r := by
  have hq : Int.tdiv r mx = 0 := by
    rcases le_total 0 r with h | h
    · exact Int.tdiv_eq_zero_of_lt h h2
    · have e : r = -(-r) := by ring
      rw [e, Int.neg_tdiv, Int.tdiv_eq_zero_of_lt (by omega) (by omega)]
      rfl
  refine ⟨hq, ?_⟩
  rw [tmod_eq_sub, hq]
  ring

/-- The remainder of a truncating division by a positive divisor is strictly
between minus the divisor and the divisor. -/
theorem tmod_small (c mx : Int) (hmx : 0 < mx) :
    -mx < Int.tmod c mx ∧ Int.tmod c mx < mx := by
  obtain ⟨-, p, n⟩ := tdiv_tmod_spec c mx hmx
  rcases le_total 0 c with h | h
  · have := p h
    omega
  · have := n h
    omega

/-- One normalised count: no day left in it, and normalising again changes
nothing. -/
theorem normalised_parts (c mx : Int) (hmx : 0 < mx) :
    ¬ (Int.tmod c mx > mx) ∧ to_int (Int.tdiv (Int.tmod c mx) mx) = 0 ∧
      Int.tmod (Int.tmod c mx) mx = Int.tmod c mx := by
  obtain ⟨s1, s2⟩ := tmod_small c mx hmx
  obtain ⟨q, r⟩ := tdiv_tmod_small (Int.tmod c mx) mx s1 s2
  refine ⟨by omega, ?_, r⟩
  rw [q]
  rfl

/-- C28: for seconds, milliseconds and microseconds and every stored count
`c`, the value left by one `remove_days()` has `more_than_day()` false and
`to_days()` 0, a second `remove_days()` returns 0 and leaves it unchanged, and
`to_days()` (a function of the count only) returns what `remove_days()`
returns. -/
theorem remove_days_idempotent (c : Int) :
    ((seconds.mk c).remove_days.2.more_than_day = false ∧
      (seconds.mk c).remove_days.2.to_days = 0 ∧
      (seconds.mk c).remove_days.2.remove_days =
        (0, (seconds.mk c).remove_days.2) ∧
      (seconds.mk c).to_days = (seconds.mk c).remove_days.1) ∧
    ((milliseconds.mk c).remove_days.2.more_than_day = false ∧
      (milliseconds.mk c).remove_days.2.to_days = 0 ∧
      (milliseconds.mk c).remove_days.2.remove_days =
        (0, (milliseconds.mk c).remove_days.2) ∧
      (milliseconds.mk c).to_days = (milliseconds.mk c).remove_days.1) ∧
    ((microseconds.mk c).remove_days.2.more_than_day = false ∧
      (microseconds.mk c).remove_days.2.to_days = 0 ∧
      (microseconds.mk c).remove_days.2.remove_days =
        (0, (microseconds.mk c).remove_days.2) ∧
      (microseconds.mk c).to_days = (microseconds.mk c).remove_days.1) := by
  obtain ⟨a1, a2, a3⟩ := normalised_parts c seconds.max_in_day (by decide)
  obtain ⟨b1, b2, b3⟩ := normalised_parts c milliseconds.max_in_day (by decide)
  obtain ⟨c1, c2, c3⟩ := normalised_parts c microseconds.max_in_day (by decide)
  refine ⟨⟨?_, ?_, ?_, rfl⟩, ⟨?_, ?_, ?_, rfl⟩, ⟨?_, ?_, ?_, rfl⟩⟩
  · simp only [seconds.remove_days, seconds.more_than_day, decide_eq_false_iff_not]
    exact a1
  · simp only [seconds.remove_days, seconds.to_days]
    exact a2
  · simp only [seconds.remove_days]
    rw [a2, a3]
  · simp only [milliseconds.remove_days, milliseconds.more_than_day,
      decide_eq_false_iff_not]
    exact b1
  · simp only [milliseconds.remove_days, milliseconds.to_days]
    exact b2
  · simp only [milliseconds.remove_days]
    rw [b2, b3]
  · simp only [microseconds.remove_days, microseconds.more_than_day,
      decide_eq_false_iff_not]
    exact c1
  · simp only [microseconds.remove_days, microseconds.to_days]
    exact c2
  · simp only [microseconds.remove_days]
    rw [c2, c3]

/-- Truncating division by a positive divisor is monotone. -/
theorem tdiv_mono (a b k : Int) (hk : 0 < k) (hab : a ≤ b) :
    Int.tdiv a k ≤ Int.tdiv b k := by
  rcases le_total 0 a with ha | ha
  · rw [tdiv_of_nonneg a k ha hk, tdiv_of_nonneg b k (by omega) hk]
    exact Int.ediv_le_ediv hk hab
  · rcases le_total 0 b with hb | hb
    · rw [tdiv_of_nonpos a k ha hk, tdiv_of_nonneg b k hb hk]
      have h1 : 0 ≤ (-a) / k := Int.ediv_nonneg (by omega) (le_of_lt hk)
      have h2 : 0 ≤ b / k := Int.ediv_nonneg hb (le_of_lt hk)
      omega
    · rw [tdiv_of_nonpos a k ha hk, tdiv_of_nonpos b k hb hk]
      have := Int.ediv_le_ediv hk (show -b ≤ -a by omega)
      omega

/-- Truncating division by 1000 twice is truncating division by 1000000. -/
theorem tdiv_thousand_twice (c : Int) :
    Int.tdiv (Int.tdiv c 1000) 1000 = Int.tdiv c 1000000 := by
  rcases le_total 0 c with hc | hc
  · rw [tdiv_of_nonneg c 1000 hc (by norm_num),
      tdiv_of_nonneg c 1000000 hc (by norm_num),
      tdiv_of_nonneg (c / 1000) 1000 (by omega) (by norm_num)]
    omega
  · rw [tdiv_of_nonpos c 1000 hc (by norm_num),
      tdiv_of_nonpos c 1000000 hc (by norm_num),
      tdiv_of_nonpos (-(-c / 1000)) 1000 (by omega) (by norm_num)]
    rw [neg_neg]
    omega

/-- C29: for every microsecond count `c`, negative included, narrowing to
milliseconds and then to seconds equals narrowing to seconds directly; and
each of the three narrowing casts is monotone in the stored count. -/
theorem narrowing_paths_agree (c a b : Int) (hab : a ≤ b) :
    (microseconds.mk c).to_milliseconds.to_seconds =
        (microseconds.mk c).to_seconds ∧
      (microseconds.mk a).to_milliseconds.m_msec ≤
        (microseconds.mk b).to_milliseconds.m_msec ∧
      (microseconds.mk a).to_seconds.m_sec ≤
        (microseconds.mk b).to_seconds.m_sec ∧
      (milliseconds.mk a).to_seconds.m_sec ≤
        (milliseconds.mk b).to_seconds.m_sec := by
  refine ⟨?_, ?_, ?_, ?_⟩
  · simp only [microseconds.to_milliseconds, milliseconds.to_seconds,
      microseconds.to_seconds]
    rw [tdiv_thousand_twice]
  · exact tdiv_mono a b 1000 (by norm_num) hab
  · exact tdiv_mono a b 1000000 (by norm_num) hab
  · exact tdiv_mono a b 1000 (by norm_num) hab

/-- C29, at the negative count -1500001 and the pair -1 ≤ 999. -/
theorem narrowing_paths_agree_witness :
    ((-1 : Int) ≤ 999) ∧
      (microseconds.mk (-1500001)).to_milliseconds.to_seconds =
        (microseconds.mk (-1500001)).to_seconds ∧
      (microseconds.mk (-1)).to_milliseconds.m_msec ≤
        (microseconds.mk 999).to_milliseconds.m_msec ∧
      (microseconds.mk (-1)).to_seconds.m_sec ≤
        (microseconds.mk 999).to_seconds.m_sec ∧
      (milliseconds.mk (-1)).to_seconds.m_sec ≤
        (milliseconds.mk 999).to_seconds.m_sec :=
  ⟨by decide, narrowing_paths_agree (-1500001) (-1) 999 (by decide)⟩

/-- The components of a count built as `x + (60 * m + 3600 * h) * R` from
non-negative parts, by successive truncating divisions. -/
theorem hmsf_of_parts (h m x R c : Int) (hR : 0 < R) (hh : 0 ≤ h)
    (hm0 : 0 ≤ m) (hm1 : m < 60) (hx0 : 0 ≤ x) (hx1 : x < 60 * R)
    (hc : c = x + (60 * m + 3600 * h) * R) :
    Int.tdiv c (3600 * R) = h ∧
      Int.tdiv (Int.tmod c (3600 * R)) (60 * R) = m ∧
      Int.tmod (Int.tmod c (3600 * R)) (60 * R) = x := by
  have hc0 : 0 ≤ c := by rw [hc]; positivity
  have k1 : 0 < 3600 * R := by omega
  have k2 : 0 < 60 * R := by omega
  have hr : 0 ≤ x + m * (60 * R) ∧ x + m * (60 * R) < 3600 * R := by
    constructor
    · positivity
    · nlinarith
  have q1 : c / (3600 * R) = h := by
    have e : c = (x + m * (60 * R)) + (3600 * R) * h := by rw [hc]; ring
    rw [e, Int.add_mul_ediv_left _ _ (by omega), Int.ediv_eq_zero_of_lt hr.1 hr.2]
    ring
  have t1 : Int.tdiv c (3600 * R) = h := by
    rw [tdiv_of_nonneg c _ hc0 k1]; exact q1
  have r1 : Int.tmod c (3600 * R) = x + m * (60 * R) := by
    rw [tmod_eq_sub, t1, hc]; ring
  have q2 : (x + m * (60 * R)) / (60 * R) = m := by
    rw [Int.add_mul_ediv_right _ _ (by omega), Int.ediv_eq_zero_of_lt hx0 hx1]
    ring
  have t2 : Int.tdiv (x + m * (60 * R)) (60 * R) = m := by
    rw [tdiv_of_nonneg _ _ hr.1 k2]; exact q2
  refine ⟨t1, ?_, ?_⟩
  · rw [r1]; exact t2
  · rw [r1, tmod_eq_sub, t2]; ring

/-- C30: for each duration type with resolution `R` (1, 1000, 1000000), every
`h` in `0..INT_MAX`, `0 ≤ m < 60` and `0 ≤ x < 60 * R`, the value constructed
from `hours h`, `minutes m` and the count `x` stores
`x + (60 * m + 3600 * h) * R`, and its `to_hmsf()` is `(h, m, x / R, x % R)`,
the fourth component being 0 for seconds. -/
theorem to_hmsf_of_components (h m x1 x2 x3 : Int) (hh0 : 0 ≤ h)
    (hh1 : h ≤ 2147483647) (hm0 : 0 ≤ m) (hm1 : m < 60)
    (h10 : 0 ≤ x1) (h11 : x1 < 60) (h20 : 0 ≤ x2) (h21 : x2 < 60 * 1000)
    (h30 : 0 ≤ x3) (h31 : x3 < 60 * 1000000) :
    ((seconds.seconds ⟨h⟩ ⟨m⟩ ⟨x1⟩).m_sec = x1 + (60 * m + 3600 * h) * 1 ∧
      (seconds.seconds ⟨h⟩ ⟨m⟩ ⟨x1⟩).to_hmsf = (⟨h⟩, ⟨m⟩, ⟨x1 / 1⟩, 0) ∧
      x1 % 1 = 0) ∧
    ((milliseconds.milliseconds ⟨h⟩ ⟨m⟩ ⟨x2⟩).m_msec =
        x2 + (60 * m + 3600 * h) * 1000 ∧
      (milliseconds.milliseconds ⟨h⟩ ⟨m⟩ ⟨x2⟩).to_hmsf =
        (⟨h⟩, ⟨m⟩, ⟨x2 / 1000⟩, x2 % 1000)) ∧
    ((microseconds.microseconds ⟨h⟩ ⟨m⟩ ⟨x3⟩).m_msec =
        x3 + (60 * m + 3600 * h) * 1000000 ∧
      (microseconds.microseconds ⟨h⟩ ⟨m⟩ ⟨x3⟩).to_hmsf =
        (⟨h⟩, ⟨m⟩, ⟨x3 / 1000000⟩, x3 % 1000000)) := by
  have fh : to_int h = h := to_int_fits h ⟨by omega, hh1⟩
  have fm : to_int m = m := to_int_fits m ⟨by omega, by omega⟩
  refine ⟨⟨?_, ?_, ?_⟩, ⟨?_, ?_⟩, ⟨?_, ?_⟩⟩
  · simp only [seconds.seconds]; ring
  · obtain ⟨t1, t2, t3⟩ := hmsf_of_parts h m x1 1 (x1 + m * 60 + h * 3600)
      (by norm_num) hh0 hm0 hm1 h10 (by omega) (by ring)
    norm_num at t1 t2 t3
    simp only [seconds.seconds, seconds.to_hmsf, t1, t2, t3, fh, fm,
      Int.ediv_one]
  · omega
  · simp only [milliseconds.milliseconds]; ring
  · obtain ⟨t1, t2, t3⟩ := hmsf_of_parts h m x2 1000
      (x2 + m * 60 * 1000 + h * 3600 * 1000)
      (by norm_num) hh0 hm0 hm1 h20 (by omega) (by ring)
    norm_num at t1 t2 t3
    have t4 : Int.tdiv x2 1000 = x2 / 1000 :=
      tdiv_of_nonneg x2 1000 h20 (by norm_num)
    simp only [milliseconds.milliseconds, milliseconds.to_hmsf, t1, t2, t3,
      t4, fh, fm]
    congr 3
    omega
  · simp only [microseconds.microseconds]; ring
  · obtain ⟨t1, t2, t3⟩ := hmsf_of_parts h m x3 1000000
      (x3 + (m * 60 + h * 3600) * 1000 * 1000)
      (by norm_num) hh0 hm0 hm1 h30 (by omega) (by ring)
    norm_num at t1 t2 t3
    have t4 : Int.tdiv x3 1000000 = x3 / 1000000 :=
      tdiv_of_nonneg x3 1000000 h30 (by norm_num)
    simp only [microseconds.microseconds, microseconds.to_hmsf, t1, t2, t3,
      t4, fh, fm]
    congr 3
    omega

/-- C30, at 13 h 45 min with 59 s, 59999 ms and 59999999 µs. -/
theorem to_hmsf_of_components_witness :
    ((0 : Int) ≤ 13 ∧ (13 : Int) ≤ 2147483647 ∧ (0 : Int) ≤ 45 ∧
      (45 : Int) < 60) ∧
    ((seconds.seconds ⟨13⟩ ⟨45⟩ ⟨59⟩).m_sec = 59 + (60 * 45 + 3600 * 13) * 1 ∧
      (seconds.seconds ⟨13⟩ ⟨45⟩ ⟨59⟩).to_hmsf = (⟨13⟩, ⟨45⟩, ⟨59 / 1⟩, 0) ∧
      (59 : Int) % 1 = 0) ∧
    ((milliseconds.milliseconds ⟨13⟩ ⟨45⟩ ⟨59999⟩).m_msec =
        59999 + (60 * 45 + 3600 * 13) * 1000 ∧
      (milliseconds.milliseconds ⟨13⟩ ⟨45⟩ ⟨59999⟩).to_hmsf =
        (⟨13⟩, ⟨45⟩, ⟨59999 / 1000⟩, 59999 % 1000)) ∧
    ((microseconds.microseconds ⟨13⟩ ⟨45⟩ ⟨59999999⟩).m_msec =
        59999999 + (60 * 45 + 3600 * 13) * 1000000 ∧
      (microseconds.microseconds ⟨13⟩ ⟨45⟩ ⟨59999999⟩).to_hmsf =
        (⟨13⟩, ⟨45⟩, ⟨59999999 / 1000000⟩, 59999999 % 1000000)) :=
  ⟨by decide,
    to_hmsf_of_components 13 45 59 59999 59999999 (by decide) (by decide)
      (by decide) (by decide) (by decide) (by decide) (by decide) (by decide)
      (by decide) (by decide)⟩

end ngpt
